import Mathlib

/-!
# Avalon role server (`avalon-game/server.js`)

A shallow embedding of the room store, the role assignment, the reveal and
status services, the expiry sweep and the request and socket handlers, followed
by theorems about them.

Conventions of the embedding:

* the module-level `gameRooms` map is passed in and handed back explicitly;
* a JavaScript `Map` with string keys is an association list in insertion
  order, a JavaScript `Set` is a duplicate-free list in insertion order;
* integral JavaScript numbers (seats, timestamps) are `Int`, numbers that
  arrive in a request body are rationals inside `JsValue`;
* `Math.random()` is a stream of draws, `Date.now()` is an argument, and the
  order produced by `Array.prototype.sort` under the random comparator is a
  permutation of the five indices, given as an argument.
-/

namespace Avalon

/-! ## JavaScript values and containers -/

/-- A value as it may arrive in a parsed JSON request body (objects and arrays
are not represented), `undefined` standing for a missing field. -/
inductive JsValue where
  | undefined
  | null
  | bool (b : Bool)
  | number (q : ℚ)
  | string (s : String)
  deriving DecidableEq

/-- The strict equality `a === b` on the represented values. -/
def strictEq (a b : JsValue) : Bool := decide (a = b)

/-- The operation `ToNumber` of the language; `none` is `NaN`. The conversion of
string contents is the engine's and is taken as the argument `strToNum`. -/
def toNumber (strToNum : String → Option ℚ) : JsValue → Option ℚ
  | .undefined => none
  | .null => some 0
  | .bool b => some (if b then 1 else 0)
  | .number q => some q
  | .string s => strToNum s

/-- The comparison `a < b` after numeric conversion: false when either side is `NaN`. -/
def jsLt (a b : Option ℚ) : Bool :=
  match a, b with
  | some x, some y => decide (x < y)
  | _, _ => false

/-- The method `Map.prototype.get`. -/
def mapGet {α : Type} : List (String × α) → String → Option α
  | [], _ => none
  | (k, v) :: m, key => if k = key then some v else mapGet m key

/-- The method `Map.prototype.set`: an existing key keeps its place and gets
the new value, a new key is appended. -/
def mapSet {α : Type} : List (String × α) → String → α → List (String × α)
  | [], key, value => [(key, value)]
  | (k, v) :: m, key, value =>
    if k = key then (key, value) :: m else (k, v) :: mapSet m key value

/-- The method `Map.prototype.delete`. -/
def mapDelete {α : Type} (m : List (String × α)) (key : String) : List (String × α) :=
  m.filter (fun e => decide (e.1 ≠ key))

/-- The method `Set.prototype.add`. -/
def setAdd (s : List JsValue) (v : JsValue) : List JsValue :=
  if v ∈ s then s else s ++ [v]

/-- The method `String.prototype.charAt`: the empty string outside the range. -/
def charAt (s : String) (i : Int) : String :=
  if 0 ≤ i then
    match s.toList.get? i.toNat with
    | some c => String.singleton c
    | none => ""
  else ""

/-! ## Data model -/

/-- An entry of the `ROLES` table. -/
structure RoleDefinition where
  name : String
  team : String
  description : String
  deriving DecidableEq

/-- The constant `ROLES`. -/
def ROLES : List RoleDefinition :=
  [ { name := "忠臣", team := "blue", description := "忠诚的圆桌骑士" },
    { name := "忠臣", team := "blue", description := "忠诚的圆桌骑士" },
    { name := "忠臣", team := "blue", description := "忠诚的圆桌骑士" },
    { name := "幻妖", team := "purple", description := "邪恶阵营的迷惑者" },
    { name := "摩根勒菲", team := "red", description := "邪恶的女巫" } ]

/-- An element of `roomData.players`. -/
structure Player where
  seat : Int
  role : String
  team : String
  description : String
  viewed : Bool
  deriving DecidableEq

/-- The object `roomData`. -/
structure Room where
  code : String
  players : List Player
  phantomSeat : Int
  morganSeat : Int
  createdAt : Int
  viewers : List JsValue
  deriving DecidableEq

/-- The map `gameRooms`. -/
abbrev GameRooms := List (String × Room)

/-- The optional `specialInfo` block of a role view. -/
structure SpecialInfo where
  type : String
  phantomSeat : Option Int
  message : Option String
  deriving DecidableEq

/-- The object `data` returned by `getPlayerInfo`. -/
structure PlayerInfo where
  seat : Int
  role : String
  team : String
  description : String
  specialInfo : Option SpecialInfo
  deriving DecidableEq

/-- The object returned by `getRoomStatus`. -/
structure RoomStatus where
  code : String
  totalPlayers : Int
  viewedPlayers : Int
  allViewed : Bool
  deriving DecidableEq

/-- The JSON answer of the `get-role` handler. -/
structure GetRoleResponse where
  success : Bool
  message : Option String
  player : Option PlayerInfo
  roomStatus : Option (Option RoomStatus)
  deriving DecidableEq

/-! ## Operations -/

/-- The alphabet of `generateRoomCode`. -/
def chars : String := "ABCDEFGHJKLMNPQRSTUVWXYZ23456789"

/-- The function `generateRoomCode`; `random i` is the value of the `i`-th call of
`Math.random()`. -/
def generateRoomCode (random : Nat → ℚ) : String :=
  (List.range 4).foldl
    (fun code i => code ++ charAt chars ⌊random i * (chars.length : ℚ)⌋) ""

/-- The array `shuffledRoles`: the copy of `ROLES` in the order `σ` left by the sort,
position `i` holding the entry that was at position `σ i`. -/
def shuffledRoles (σ : Equiv.Perm (Fin 5)) : List RoleDefinition :=
  (List.finRange 5).map (fun i => ROLES.get ⟨(σ i).val, (σ i).isLt⟩)

/-- The array `players` built by `shuffledRoles.map((role, index) => ...)`. -/
def mkPlayers (roles : List RoleDefinition) : List Player :=
  roles.enum.map (fun e =>
    { seat := (e.1 : Int) + 1,
      role := e.2.name,
      team := e.2.team,
      description := e.2.description,
      viewed := false })

/-- The callback of `players.forEach`, on the pair `(phantomSeat, morganSeat)`. -/
def scanStep (acc : Int × Int) (player : Player) : Int × Int :=
  (if player.role = "幻妖" then player.seat else acc.1,
   if player.role = "摩根勒菲" then player.seat else acc.2)

/-- The `players.forEach` scan, returning `(phantomSeat, morganSeat)`. -/
def scanSeats (players : List Player) : Int × Int :=
  players.foldl scanStep (-1, -1)

/-- The function `createGameRoom`. -/
def createGameRoom (gameRooms : GameRooms) (random : Nat → ℚ) (σ : Equiv.Perm (Fin 5))
    (now : Int) : GameRooms × String :=
  let roomCode := generateRoomCode random
  let players := mkPlayers (shuffledRoles σ)
  let seats := scanSeats players
  let roomData : Room :=
    { code := roomCode,
      players := players,
      phantomSeat := seats.1,
      morganSeat := seats.2,
      createdAt := now,
      viewers := [] }
  (mapSet gameRooms roomCode roomData, roomCode)

/-- The `specialInfo` assignments of `getPlayerInfo`, in source order. -/
def specialInfoOf (room : Room) (player : Player) : Option SpecialInfo :=
  let s₁ : Option SpecialInfo :=
    if player.role = "摩根勒菲" ∧ room.phantomSeat ≠ -1 then
      some { type := "morgan_knows_phantom", phantomSeat := some room.phantomSeat,
             message := none }
    else none
  if player.role = "幻妖" then
    some { type := "phantom_info", phantomSeat := none,
           message := some "摩根勒菲认识你，但你不知道她是谁" }
  else s₁

/-- The function `getPlayerInfo`; the mutation of `room.viewers` is written back
into the store. -/
def getPlayerInfo (gameRooms : GameRooms) (roomCode : String) (seatNumber : JsValue) :
    GameRooms × Option PlayerInfo :=
  match mapGet gameRooms roomCode with
  | none => (gameRooms, none)
  | some room =>
    match room.players.find? (fun p => strictEq (.number (p.seat : ℚ)) seatNumber) with
    | none => (gameRooms, none)
    | some player =>
      let data : PlayerInfo :=
        { seat := player.seat,
          role := player.role,
          team := player.team,
          description := player.description,
          specialInfo := specialInfoOf room player }
      (mapSet gameRooms roomCode { room with viewers := setAdd room.viewers seatNumber },
        some data)

/-- The function `getRoomStatus`. -/
def getRoomStatus (gameRooms : GameRooms) (roomCode : String) : Option RoomStatus :=
  match mapGet gameRooms roomCode with
  | none => none
  | some room =>
    some { code := room.code,
           totalPlayers := 5,
           viewedPlayers := (room.viewers.length : Int),
           allViewed := decide (room.viewers.length = 5) }

/-- The function `cleanupOldRooms`, the loop running over the entries present at its start. -/
def cleanupOldRooms (gameRooms : GameRooms) (now : Int) : GameRooms :=
  let oneHour : Int := 60 * 60 * 1000
  gameRooms.foldl
    (fun m e => if now - e.2.createdAt > oneHour then mapDelete m e.1 else m)
    gameRooms

/-- The handler of `POST /api/get-role`. -/
def getRole (strToNum : String → Option ℚ) (gameRooms : GameRooms) (roomCode : String)
    (seatNumber : JsValue) : GameRooms × GetRoleResponse :=
  match mapGet gameRooms roomCode with
  | none =>
    (gameRooms, { success := false, message := some "房间不存在", player := none,
                  roomStatus := none })
  | some _ =>
    if jsLt (toNumber strToNum seatNumber) (some 1)
        || jsLt (some 5) (toNumber strToNum seatNumber) then
      (gameRooms, { success := false, message := some "座位号无效", player := none,
                    roomStatus := none })
    else
      match getPlayerInfo gameRooms roomCode seatNumber with
      | (gameRooms₁, none) =>
        (gameRooms₁, { success := false, message := some "获取角色失败", player := none,
                       roomStatus := none })
      | (gameRooms₁, some playerInfo) =>
        (gameRooms₁, { success := true, message := none, player := some playerInfo,
                       roomStatus := some (getRoomStatus gameRooms₁ roomCode) })

/-- One call on the store: the four functions that the handlers and the timer run. -/
inductive Op where
  | create (random : Nat → ℚ) (σ : Equiv.Perm (Fin 5)) (now : Int)
  | reveal (roomCode : String) (seatNumber : JsValue)
  | status (roomCode : String)
  | cleanup (now : Int)

/-- The store after one call. -/
def Op.run (g : GameRooms) : Op → GameRooms
  | .create random σ now => (createGameRoom g random σ now).1
  | .reveal roomCode seatNumber => (getPlayerInfo g roomCode seatNumber).1
  | .status _ => g
  | .cleanup now => cleanupOldRooms g now

/-- The stores that the server can be in: from the empty map, any sequence of calls of
`createGameRoom`, `getPlayerInfo`, `getRoomStatus` and `cleanupOldRooms`. -/
inductive Reachable : GameRooms → Prop where
  | empty : Reachable []
  | step {g : GameRooms} (op : Op) : Reachable g → Reachable (op.run g)

/-- A sequence of reveals `(roomCode, seatNumber)`, run in order. -/
def runReveals (g : GameRooms) (reveals : List (String × JsValue)) : GameRooms :=
  reveals.foldl (fun m e => (getPlayerInfo m e.1 e.2).1) g

/-- The `(name, team, description)` record of a player slot. -/
def Player.toRole (p : Player) : RoleDefinition :=
  { name := p.role, team := p.team, description := p.description }

/-! ## Invariants, a concrete run and auxiliary definitions -/

/-- What holds of every room that the store can contain. -/
structure RoomInv (r : Room) : Prop where
  seats : r.players.map (fun p => p.seat) = [1, 2, 3, 4, 5]
  roles : (r.players.map Player.toRole).Perm ROLES
  unviewed : ∀ p ∈ r.players, p.viewed = false
  phantom : ∃ p ∈ r.players, p.seat = r.phantomSeat ∧ p.role = "幻妖"
  morgan : ∃ p ∈ r.players, p.seat = r.morganSeat ∧ p.role = "摩根勒菲"
  viewersNodup : r.viewers.Nodup
  viewersRange : ∀ v ∈ r.viewers, ∃ k : Int, 1 ≤ k ∧ k ≤ 5 ∧ v = JsValue.number (k : ℚ)

/-- What holds of every store that the server can be in. -/
structure StoreInv (g : GameRooms) : Prop where
  keys : (g.map Prod.fst).Nodup
  rooms : ∀ e ∈ g, RoomInv e.2 ∧ e.2.code = e.1

/-- The keys that the sweep over the entries `l` at time `now` leaves in place. -/
def keptKey (l : GameRooms) (now : Int) (key : String) : Bool :=
  !(l.any (fun e => decide (now - e.2.createdAt > 60 * 60 * 1000) && decide (e.1 = key)))

/-- The room that `createGameRoom` builds for the code `roomCode`. -/
def freshRoom (roomCode : String) (σ : Equiv.Perm (Fin 5)) (now : Int) : Room :=
  { code := roomCode,
    players := mkPlayers (shuffledRoles σ),
    phantomSeat := (scanSeats (mkPlayers (shuffledRoles σ))).1,
    morganSeat := (scanSeats (mkPlayers (shuffledRoles σ))).2,
    createdAt := now,
    viewers := [] }

/-- Draws that are all `0`: the code generated from them is `AAAA`. -/
def zeroDraws : Nat → ℚ := fun _ => 0

/-- The sort outcome that exchanges the first and the last catalog entry. -/
def swapEnds : Equiv.Perm (Fin 5) := Equiv.swap 0 4

/-- The room created from `zeroDraws` and `swapEnds` at time `1000`. -/
def sampleRoom : Room :=
  { code := "AAAA",
    players :=
      [ { seat := 1, role := "摩根勒菲", team := "red", description := "邪恶的女巫",
          viewed := false },
        { seat := 2, role := "忠臣", team := "blue", description := "忠诚的圆桌骑士",
          viewed := false },
        { seat := 3, role := "忠臣", team := "blue", description := "忠诚的圆桌骑士",
          viewed := false },
        { seat := 4, role := "幻妖", team := "purple", description := "邪恶阵营的迷惑者",
          viewed := false },
        { seat := 5, role := "忠臣", team := "blue", description := "忠诚的圆桌骑士",
          viewed := false } ],
    phantomSeat := 4,
    morganSeat := 1,
    createdAt := 1000,
    viewers := [] }

/-- The store after one `createGameRoom` on the empty map. -/
def sampleStore : GameRooms := (createGameRoom [] zeroDraws swapEnds 1000).1

/-- The sort outcome that exchanges the second and the last catalog entry. -/
def swapSecondLast : Equiv.Perm (Fin 5) := Equiv.swap 1 4

/-- The room created from `zeroDraws` and `swapSecondLast` at time `2000`: the purple
role sits at seat 4 as in `sampleRoom`, the red role at seat 2. -/
def otherRoom : Room :=
  { code := "AAAA",
    players :=
      [ { seat := 1, role := "忠臣", team := "blue", description := "忠诚的圆桌骑士",
          viewed := false },
        { seat := 2, role := "摩根勒菲", team := "red", description := "邪恶的女巫",
          viewed := false },
        { seat := 3, role := "忠臣", team := "blue", description := "忠诚的圆桌骑士",
          viewed := false },
        { seat := 4, role := "幻妖", team := "purple", description := "邪恶阵营的迷惑者",
          viewed := false },
        { seat := 5, role := "忠臣", team := "blue", description := "忠诚的圆桌骑士",
          viewed := false } ],
    phantomSeat := 4,
    morganSeat := 2,
    createdAt := 2000,
    viewers := [] }

/-- Another store after one `createGameRoom` on the empty map. -/
def otherStore : GameRooms := (createGameRoom [] zeroDraws swapSecondLast 2000).1

/-- The seats `1..5` whose number is revealed for `code` somewhere in `reveals`. -/
def revealedSeats (reveals : List (String × JsValue)) (code : String) : List Int :=
  ([1, 2, 3, 4, 5] : List Int).filter
    (fun k => decide ((code, JsValue.number (k : ℚ)) ∈ reveals))

/-- The room under `code` is stored, well formed, and its viewers are exactly the seat
numbers `1..5` revealed for `code` in `done`. -/
def Tracked (code : String) (done : List (String × JsValue)) (g : GameRooms) : Prop :=
  ∃ room, mapGet g code = some room ∧ RoomInv room ∧ room.code = code
    ∧ ∀ v, v ∈ room.viewers ↔
        ((∃ k : Int, 1 ≤ k ∧ k ≤ 5 ∧ v = JsValue.number (k : ℚ)) ∧ (code, v) ∈ done)

/-- The JSON answer of the `room-status` handler; `status` holds the spread fields
`code`, `totalPlayers`, `viewedPlayers`, `allViewed`. -/
structure RoomStatusResponse where
  success : Bool
  message : Option String
  status : Option RoomStatus
  deriving DecidableEq

/-- The handler of `GET /api/room-status/:roomCode`. -/
def roomStatusRoute (gameRooms : GameRooms) (roomCode : String) :
    GameRooms × RoomStatusResponse :=
  match getRoomStatus gameRooms roomCode with
  | none => (gameRooms, { success := false, message := some "房间不存在", status := none })
  | some roomStatus => (gameRooms, { success := true, message := none, status := some roomStatus })

/-- Whether the comparator `() => Math.random() - 0.5` returns a negative number at the
draw `r`. -/
def comparatorNegative (r : ℚ) : Bool := decide (r - 1 / 2 < 0)

/-- The order left by `[...ROLES].sort(() => Math.random() - 0.5)` when the engine's sort
procedure `sort` calls the comparator at most `n` times and reads the signs of its
results; `draws i` is the draw of the `i`-th call. -/
def sortOutcome {n : Nat} (sort : (Fin n → Bool) → Equiv.Perm (Fin 5)) (draws : Fin n → ℚ) :
    Equiv.Perm (Fin 5) :=
  sort (fun i => comparatorNegative (draws i))

/-- The number of the `2 ^ n` sign sequences of the comparator after which `sort` leaves
the order `σ`; each sequence has probability `1 / 2 ^ n` under independent uniform draws. -/
def outcomeCount {n : Nat} (sort : (Fin n → Bool) → Equiv.Perm (Fin 5))
    (σ : Equiv.Perm (Fin 5)) : Nat :=
  (Finset.univ.filter (fun signs : Fin n → Bool => sort signs = σ)).card

/-- The index `Math.floor(Math.random() * chars.length)` of the `i`-th character. -/
def codeIndex (random : Nat → ℚ) (i : Nat) : Int := ⌊random i * (chars.length : ℚ)⌋

/-- What a client sends as a request body or as the argument of a socket event: a
primitive value (`undefined` when there is none) or an object, given by its fields
(`undefined` where a field is absent; fields that are objects are not represented). -/
inductive Received where
  | value (v : JsValue)
  | object (field : String → JsValue)

/-- The destructuring `{ name } = received`: it throws a `TypeError` (`none`) on
`undefined` and on `null`, reads the field of an object, and gives `undefined` on any
other primitive. -/
def Received.field? (received : Received) (name : String) : Option JsValue :=
  match received with
  | .value .undefined => none
  | .value .null => none
  | .value _ => some .undefined
  | .object field => some (field name)

/-- The JSON answer of the `join-room` handler. -/
structure JoinRoomResponse where
  success : Bool
  message : Option String
  roomCode : Option String
  totalPlayers : Option Int
  deriving DecidableEq

/-- The handler of `POST /api/join-room` on the parsed body `req.body`. The keys of
`gameRooms` are strings, so `gameRooms.get` finds nothing for any other value. The answer
is `none` when `const { roomCode } = req.body` throws: the framework catches what a route
handler throws and the server goes on with the same store. -/
def joinRoomRoute (gameRooms : GameRooms) (body : Received) :
    GameRooms × Option JoinRoomResponse :=
  match body.field? "roomCode" with
  | none => (gameRooms, none)
  | some (.string roomCode) =>
    match mapGet gameRooms roomCode with
    | none =>
      (gameRooms, some { success := false, message := some "房间不存在", roomCode := none,
                         totalPlayers := none })
    | some _ =>
      (gameRooms, some { success := true, message := none, roomCode := some roomCode,
                         totalPlayers := some 5 })
  | some _ =>
    (gameRooms, some { success := false, message := some "房间不存在", roomCode := none,
                       totalPlayers := none })

/-- A `room-update` event sent by `io.to(topic).emit`. -/
structure RoomUpdate where
  topic : String
  payload : RoomStatus
  deriving DecidableEq

/-- The socket handler of the `join-room` event, which takes the event argument as it
comes: the store and the events sent (the subscription made by `socket.join` is transport
state and is not represented). Only a string can be the code of a stored room. -/
def onJoinRoom (gameRooms : GameRooms) (roomCode : Received) : GameRooms × List RoomUpdate :=
  match roomCode with
  | .value (.string code) =>
    match getRoomStatus gameRooms code with
    | some roomStatus => (gameRooms, [{ topic := code, payload := roomStatus }])
    | none => (gameRooms, [])
  | _ => (gameRooms, [])

/-- The socket handler of the `player-viewed` event, `({ roomCode, seatNumber }) => ...`.
The parameter list destructures the event argument, so an `undefined` or `null` argument
throws a `TypeError` before the body runs; nothing catches it and the process ends, its
store with it: that outcome is `none`. Otherwise the store and the events sent. -/
def onPlayerViewed (gameRooms : GameRooms) (payload : Received) :
    Option (GameRooms × List RoomUpdate) :=
  match payload.field? "roomCode", payload.field? "seatNumber" with
  | some (.string roomCode), some _ =>
    match getRoomStatus gameRooms roomCode with
    | some roomStatus => some (gameRooms, [{ topic := roomCode, payload := roomStatus }])
    | none => some (gameRooms, [])
  | some _, some _ => some (gameRooms, [])
  | _, _ => none

/-- A string conversion that reads `"3"` as `3` and nothing else as a number. -/
def readThree : String → Option ℚ := fun s => if s = "3" then some 3 else none

/-- The store `sampleStore` after the reveal of seat 1 of its room. -/
def revealedStore : GameRooms := (Op.reveal "AAAA" (.number 1)).run sampleStore

/-! ## The map and set primitives -/

theorem mapGet_mapSet_self {α : Type} (m : List (String × α)) (key : String) (value : α) :
    mapGet (mapSet m key value) key = some value := by
  induction m with
  | nil => simp [mapSet, mapGet]
  | cons e m ih =>
    obtain ⟨k, v⟩ := e
    by_cases h : k = key
    · simp [mapSet, mapGet, h]
    · simp [mapSet, mapGet, h, ih]

theorem mapGet_mapSet_ne {α : Type} (m : List (String × α)) (key key₂ : String) (value : α)
    (h : key ≠ key₂) : mapGet (mapSet m key value) key₂ = mapGet m key₂ := by
  induction m with
  | nil => simp [mapSet, mapGet, h]
  | cons e m ih =>
    obtain ⟨k, v⟩ := e
    by_cases hk : k = key
    · subst hk; simp [mapSet, mapGet, h]
    · by_cases hk₂ : k = key₂
      · subst hk₂; simp [mapSet, mapGet, hk]
      · simp [mapSet, mapGet, hk, hk₂, ih]

theorem mapSet_mapSet {α : Type} (m : List (String × α)) (key : String) (v₁ v₂ : α) :
    mapSet (mapSet m key v₁) key v₂ = mapSet m key v₂ := by
  induction m with
  | nil => simp [mapSet]
  | cons e m ih =>
    obtain ⟨k, v⟩ := e
    by_cases h : k = key
    · simp [mapSet, h]
    · simp [mapSet, h, ih]

theorem mapGet_mem {α : Type} (m : List (String × α)) (key : String) (value : α)
    (h : mapGet m key = some value) : (key, value) ∈ m := by
  induction m with
  | nil => simp [mapGet] at h
  | cons e m ih =>
    obtain ⟨k, v⟩ := e
    by_cases hk : k = key
    · simp [mapGet, hk] at h; simp [hk, h]
    · simp [mapGet, hk] at h; exact List.mem_cons_of_mem _ (ih h)

theorem mem_mapSet {α : Type} (m : List (String × α)) (key : String) (value : α)
    (e : String × α) (h : e ∈ mapSet m key value) : e ∈ m ∨ e = (key, value) := by
  induction m with
  | nil => simp [mapSet] at h; exact Or.inr h
  | cons e₀ m ih =>
    obtain ⟨k, v⟩ := e₀
    by_cases hk : k = key
    · simp [mapSet, hk] at h
      rcases h with h | h
      · exact Or.inr h
      · exact Or.inl (List.mem_cons_of_mem _ h)
    · simp [mapSet, hk] at h
      rcases h with h | h
      · exact Or.inl (by simp [h])
      · rcases ih h with h | h
        · exact Or.inl (List.mem_cons_of_mem _ h)
        · exact Or.inr h

theorem keys_mapSet {α : Type} (m : List (String × α)) (key : String) (value : α) :
    (mapSet m key value).map Prod.fst =
      if key ∈ m.map Prod.fst then m.map Prod.fst else m.map Prod.fst ++ [key] := by
  induction m with
  | nil => simp [mapSet]
  | cons e m ih =>
    obtain ⟨k, v⟩ := e
    by_cases hk : k = key
    · simp [mapSet, hk]
    · have hk2 : ¬ key = k := fun h => hk h.symm
      simp only [mapSet, hk, if_false, List.map_cons, ih, List.mem_cons, hk2, false_or]
      split <;> simp

theorem nodup_keys_mapSet {α : Type} (m : List (String × α)) (key : String) (value : α)
    (h : (m.map Prod.fst).Nodup) : ((mapSet m key value).map Prod.fst).Nodup := by
  rw [keys_mapSet]
  split
  · exact h
  · rename_i hk
    exact List.Nodup.append h (List.nodup_singleton _) (by simpa using hk)

theorem mapGet_of_mem {α : Type} (m : List (String × α)) (key : String) (value : α)
    (hn : (m.map Prod.fst).Nodup) (h : (key, value) ∈ m) : mapGet m key = some value := by
  induction m with
  | nil => simp at h
  | cons e m ih =>
    obtain ⟨k, v⟩ := e
    simp only [List.map_cons, List.nodup_cons] at hn
    rcases List.mem_cons.mp h with h | h
    · simp only [Prod.mk.injEq] at h
      simp [mapGet, h.1, h.2]
    · have hk : k ≠ key := by
        rintro rfl
        exact hn.1 (List.mem_map.mpr ⟨(k, value), h, rfl⟩)
      simp [mapGet, hk, ih hn.2 h]

theorem mapGet_filter_key {α : Type} (m : List (String × α)) (keep : String → Bool)
    (key : String) :
    mapGet (m.filter (fun e => keep e.1)) key = if keep key then mapGet m key else none := by
  induction m with
  | nil => simp [mapGet]
  | cons e m ih =>
    obtain ⟨k, v⟩ := e
    by_cases hk : k = key
    · subst hk
      by_cases hkeep : keep k
      · simp [List.filter, hkeep, mapGet]
      · simp [List.filter, hkeep, ih]
    · by_cases hkeep : keep k
      · simp [List.filter, hkeep, mapGet, hk, ih]
      · simp [List.filter, hkeep, mapGet, hk, ih]

theorem setAdd_setAdd (s : List JsValue) (v : JsValue) : setAdd (setAdd s v) v = setAdd s v := by
  unfold setAdd
  by_cases h : v ∈ s <;> simp [h]

theorem mem_setAdd (s : List JsValue) (v w : JsValue) : w ∈ setAdd s v ↔ w ∈ s ∨ w = v := by
  unfold setAdd
  by_cases h : v ∈ s
  · simp only [h, if_true]
    constructor
    · exact Or.inl
    · rintro (h₁ | rfl)
      · exact h₁
      · exact h
  · simp [h]

theorem nodup_setAdd (s : List JsValue) (v : JsValue) (h : s.Nodup) : (setAdd s v).Nodup := by
  unfold setAdd
  by_cases hv : v ∈ s
  · simpa [hv] using h
  · simp only [hv, if_false]
    exact List.Nodup.append h (List.nodup_singleton _) (by simpa using hv)

theorem length_le_setAdd (s : List JsValue) (v : JsValue) : s.length ≤ (setAdd s v).length := by
  unfold setAdd
  by_cases hv : v ∈ s <;> simp [hv]

/-! ## Role assignment -/

theorem shuffledRoles_perm (σ : Equiv.Perm (Fin 5)) : (shuffledRoles σ).Perm ROLES := by
  have h₁ : shuffledRoles σ = ((List.finRange 5).map σ).map (fun i => ROLES.get i) := by
    simp [shuffledRoles, List.map_map, Function.comp_def]
  have h₂ : (List.finRange 5).map (fun i => ROLES.get i) = ROLES :=
    List.finRange_map_get ROLES
  rw [h₁]
  have h₃ := σ.map_finRange_perm.map (fun i => ROLES.get i)
  rw [h₂] at h₃
  exact h₃

theorem shuffledRoles_length (σ : Equiv.Perm (Fin 5)) : (shuffledRoles σ).length = 5 := by
  simp [shuffledRoles]

theorem mkPlayers_toRole (l : List RoleDefinition) : (mkPlayers l).map Player.toRole = l := by
  have h : (mkPlayers l).map Player.toRole = l.enum.map Prod.snd := by
    simp [mkPlayers, List.map_map, Function.comp_def, Player.toRole]
  rw [h, List.enum_map_snd]

theorem mkPlayers_seat (l : List RoleDefinition) :
    (mkPlayers l).map (fun p => p.seat) = (List.range l.length).map (fun (i : Nat) => (i : Int) + 1) := by
  have h : (mkPlayers l).map (fun p => p.seat) =
      (l.enum.map Prod.fst).map (fun (i : Nat) => (i : Int) + 1) := by
    simp only [mkPlayers, List.map_map, Function.comp_def]
  rw [h, List.enum_map_fst]

theorem mkPlayers_viewed (l : List RoleDefinition) (p : Player) (h : p ∈ mkPlayers l) :
    p.viewed = false := by
  simp only [mkPlayers, List.mem_map] at h
  obtain ⟨e, _, rfl⟩ := h
  rfl

theorem scanSeats_fst (l : List Player) (acc : Int × Int) :
    ((∀ p ∈ l, p.role ≠ "幻妖") ∧ (l.foldl scanStep acc).1 = acc.1) ∨
      ∃ p ∈ l, p.role = "幻妖" ∧ (l.foldl scanStep acc).1 = p.seat := by
  induction l generalizing acc with
  | nil => left; simp
  | cons q l ih =>
    rw [List.foldl_cons]
    rcases ih (scanStep acc q) with ⟨hno, heq⟩ | ⟨p, hp, hrole, heq⟩
    · by_cases hq : q.role = "幻妖"
      · right
        exact ⟨q, List.mem_cons_self _ _, hq, by rw [heq]; simp [scanStep, hq]⟩
      · left
        refine ⟨?_, by rw [heq]; simp [scanStep, hq]⟩
        intro p hp
        rcases List.mem_cons.mp hp with rfl | hp
        · exact hq
        · exact hno p hp
    · right
      exact ⟨p, List.mem_cons_of_mem _ hp, hrole, heq⟩

theorem scanSeats_snd (l : List Player) (acc : Int × Int) :
    ((∀ p ∈ l, p.role ≠ "摩根勒菲") ∧ (l.foldl scanStep acc).2 = acc.2) ∨
      ∃ p ∈ l, p.role = "摩根勒菲" ∧ (l.foldl scanStep acc).2 = p.seat := by
  induction l generalizing acc with
  | nil => left; simp
  | cons q l ih =>
    rw [List.foldl_cons]
    rcases ih (scanStep acc q) with ⟨hno, heq⟩ | ⟨p, hp, hrole, heq⟩
    · by_cases hq : q.role = "摩根勒菲"
      · right
        exact ⟨q, List.mem_cons_self _ _, hq, by rw [heq]; simp [scanStep, hq]⟩
      · left
        refine ⟨?_, by rw [heq]; simp [scanStep, hq]⟩
        intro p hp
        rcases List.mem_cons.mp hp with rfl | hp
        · exact hq
        · exact hno p hp
    · right
      exact ⟨p, List.mem_cons_of_mem _ hp, hrole, heq⟩

/-- A player slot carrying a given catalog record exists as soon as the record is among
the roles handed to `mkPlayers`. -/
theorem exists_player_of_mem (l : List RoleDefinition) (r : RoleDefinition) (h : r ∈ l) :
    ∃ p ∈ mkPlayers l, p.toRole = r := by
  rw [← mkPlayers_toRole l] at h
  obtain ⟨p, hp, hpr⟩ := List.mem_map.mp h
  exact ⟨p, by simpa [mkPlayers_toRole] using hp, hpr⟩

/-! ## Invariant of the stored rooms -/

theorem cleanup_fold (l m : GameRooms) (now : Int) :
    l.foldl (fun m e => if now - e.2.createdAt > 60 * 60 * 1000 then mapDelete m e.1 else m) m
      = m.filter (fun e => keptKey l now e.1) := by
  induction l generalizing m with
  | nil => simp [keptKey]
  | cons e l ih =>
    have key : ∀ x : String × Room, keptKey (e :: l) now x.1 =
        (!(decide (now - e.2.createdAt > 60 * 60 * 1000) && decide (e.1 = x.1))
          && keptKey l now x.1) := by
      intro x
      simp only [keptKey, List.any_cons, Bool.not_or]
    rw [List.foldl_cons, ih]
    by_cases h : now - e.2.createdAt > 60 * 60 * 1000
    · have hd := decide_eq_true h
      simp only [h, if_true, mapDelete, List.filter_filter]
      congr 1
      funext x
      rw [key x, hd]
      by_cases hx : x.1 = e.1
      · have h₁ : decide (x.1 ≠ e.1) = false := by simp [hx]
        have h₂ : decide (e.1 = x.1) = true := by simp [hx]
        rw [h₁, h₂]
        cases keptKey l now x.1 <;> rfl
      · have h₁ : decide (x.1 ≠ e.1) = true := by simp [hx]
        have h₂ : decide (e.1 = x.1) = false := by
          simp only [decide_eq_false_iff_not]
          exact fun h => hx h.symm
        rw [h₁, h₂]
        cases keptKey l now x.1 <;> rfl
    · have hd := decide_eq_false h
      simp only [h, if_false]
      congr 1
      funext x
      rw [key x, hd]
      simp

theorem cleanupOldRooms_eq (g : GameRooms) (now : Int) :
    cleanupOldRooms g now = g.filter (fun e => keptKey g now e.1) := by
  unfold cleanupOldRooms
  exact cleanup_fold g g now

theorem mapGet_cleanupOldRooms (g : GameRooms) (now : Int) (key : String) :
    mapGet (cleanupOldRooms g now) key = if keptKey g now key then mapGet g key else none := by
  rw [cleanupOldRooms_eq, mapGet_filter_key]

theorem RoomInv.mem_roles {r : Room} (h : RoomInv r) {p : Player} (hp : p ∈ r.players) :
    p.toRole ∈ ROLES :=
  h.roles.subset (List.mem_map_of_mem _ hp)

/-- The three shapes a slot can have: role name, team and description go together. -/
theorem RoomInv.slot_cases {r : Room} (h : RoomInv r) {p : Player} (hp : p ∈ r.players) :
    (p.role = "忠臣" ∧ p.team = "blue" ∧ p.description = "忠诚的圆桌骑士") ∨
    (p.role = "幻妖" ∧ p.team = "purple" ∧ p.description = "邪恶阵营的迷惑者") ∨
    (p.role = "摩根勒菲" ∧ p.team = "red" ∧ p.description = "邪恶的女巫") := by
  have hm := h.mem_roles hp
  simp only [ROLES, List.mem_cons, List.mem_singleton, List.not_mem_nil, or_false,
    Player.toRole, RoleDefinition.mk.injEq] at hm
  tauto

theorem RoomInv.seat_mem {r : Room} (h : RoomInv r) {p : Player} (hp : p ∈ r.players) :
    p.seat ∈ ([1, 2, 3, 4, 5] : List Int) := by
  rw [← h.seats]
  exact List.mem_map_of_mem (fun p => p.seat) hp

theorem RoomInv.seat_range {r : Room} (h : RoomInv r) {p : Player} (hp : p ∈ r.players) :
    1 ≤ p.seat ∧ p.seat ≤ 5 := by
  have := h.seat_mem hp
  simp only [List.mem_cons, List.mem_singleton, List.not_mem_nil, or_false] at this
  omega

theorem RoomInv.seat_inj {r : Room} (h : RoomInv r) {p q : Player} (hp : p ∈ r.players)
    (hq : q ∈ r.players) (hs : p.seat = q.seat) : p = q := by
  have hn : (r.players.map (fun p => p.seat)).Nodup := by rw [h.seats]; decide
  exact List.inj_on_of_nodup_map hn hp hq hs

theorem RoomInv.exists_seat {r : Room} (h : RoomInv r) {k : Int} (h₁ : 1 ≤ k) (h₅ : k ≤ 5) :
    ∃ p ∈ r.players, p.seat = k := by
  have hk : k ∈ r.players.map (fun p => p.seat) := by
    rw [h.seats]
    simp only [List.mem_cons, List.mem_singleton, List.not_mem_nil, or_false]
    omega
  obtain ⟨p, hp, hpk⟩ := List.mem_map.mp hk
  exact ⟨p, hp, hpk⟩

theorem number_cast_inj (a b : Int) : JsValue.number (a : ℚ) = JsValue.number (b : ℚ) ↔ a = b := by
  constructor
  · intro h
    injection h with h
    exact_mod_cast h
  · rintro rfl; rfl

/-- The lookup `room.players.find(p => p.seat === seatNumber)` at a held seat. -/
theorem RoomInv.find_seat {r : Room} (h : RoomInv r) {p : Player} (hp : p ∈ r.players) :
    r.players.find? (fun q => strictEq (.number (q.seat : ℚ)) (.number (p.seat : ℚ))) = some p := by
  cases hf : r.players.find? (fun q => strictEq (.number (q.seat : ℚ)) (.number (p.seat : ℚ))) with
  | none =>
    have := List.find?_eq_none.mp hf p hp
    simp [strictEq] at this
  | some q =>
    have hq := List.mem_of_find?_eq_some hf
    have hs := List.find?_some hf
    simp only [strictEq, decide_eq_true_eq, number_cast_inj] at hs
    rw [h.seat_inj hq hp hs]

/-- The lookup finds nothing for a value that is not the number of a seat `1..5`. -/
theorem RoomInv.find_none {r : Room} (h : RoomInv r) (v : JsValue)
    (hv : ∀ k : Int, 1 ≤ k → k ≤ 5 → v ≠ .number (k : ℚ)) :
    r.players.find? (fun q => strictEq (.number (q.seat : ℚ)) v) = none := by
  rw [List.find?_eq_none]
  intro q hq
  have hr := h.seat_range hq
  simp only [strictEq, decide_eq_true_eq]
  intro heq
  exact hv q.seat hr.1 hr.2 heq.symm

/-- Whatever the lookup finds is a slot of the room whose seat is the value asked for. -/
theorem find_seat_spec (r : Room) (v : JsValue) (p : Player)
    (h : r.players.find? (fun q => strictEq (.number (q.seat : ℚ)) v) = some p) :
    p ∈ r.players ∧ v = .number (p.seat : ℚ) := by
  refine ⟨List.mem_of_find?_eq_some h, ?_⟩
  have hs := List.find?_some h
  simp only [strictEq, decide_eq_true_eq] at hs
  exact hs.symm

theorem createGameRoom_eq (g : GameRooms) (random : Nat → ℚ) (σ : Equiv.Perm (Fin 5))
    (now : Int) :
    createGameRoom g random σ now =
      (mapSet g (generateRoomCode random) (freshRoom (generateRoomCode random) σ now),
        generateRoomCode random) := rfl

theorem freshRoom_seats (roomCode : String) (σ : Equiv.Perm (Fin 5)) (now : Int) :
    (freshRoom roomCode σ now).players.map (fun p => p.seat) = [1, 2, 3, 4, 5] := by
  simp only [freshRoom, mkPlayers_seat, shuffledRoles_length]
  rfl

theorem freshRoom_inv (roomCode : String) (σ : Equiv.Perm (Fin 5)) (now : Int) :
    RoomInv (freshRoom roomCode σ now) where
  seats := freshRoom_seats roomCode σ now
  roles := by
    simp only [freshRoom, mkPlayers_toRole]
    exact shuffledRoles_perm σ
  unviewed := fun p hp => mkPlayers_viewed _ p hp
  phantom := by
    have hmem : ({ name := "幻妖", team := "purple", description := "邪恶阵营的迷惑者" } :
        RoleDefinition) ∈ shuffledRoles σ :=
      (shuffledRoles_perm σ).symm.subset (by simp [ROLES])
    obtain ⟨q, hq, hqr⟩ := exists_player_of_mem _ _ hmem
    have hrole : q.role = "幻妖" := by
      have := congrArg RoleDefinition.name hqr
      simpa [Player.toRole] using this
    rcases scanSeats_fst (mkPlayers (shuffledRoles σ)) (-1, -1) with ⟨hno, _⟩ | ⟨p, hp, hr, heq⟩
    · exact absurd hrole (hno q hq)
    · exact ⟨p, hp, heq.symm, hr⟩
  morgan := by
    have hmem : ({ name := "摩根勒菲", team := "red", description := "邪恶的女巫" } :
        RoleDefinition) ∈ shuffledRoles σ :=
      (shuffledRoles_perm σ).symm.subset (by simp [ROLES])
    obtain ⟨q, hq, hqr⟩ := exists_player_of_mem _ _ hmem
    have hrole : q.role = "摩根勒菲" := by
      have := congrArg RoleDefinition.name hqr
      simpa [Player.toRole] using this
    rcases scanSeats_snd (mkPlayers (shuffledRoles σ)) (-1, -1) with ⟨hno, _⟩ | ⟨p, hp, hr, heq⟩
    · exact absurd hrole (hno q hq)
    · exact ⟨p, hp, heq.symm, hr⟩
  viewersNodup := List.nodup_nil
  viewersRange := by
    intro v hv
    simp [freshRoom] at hv

/-- A reveal that finds its slot leaves a room satisfying the invariant. -/
theorem RoomInv.reveal {r : Room} (h : RoomInv r) {v : JsValue} {p : Player}
    (hf : r.players.find? (fun q => strictEq (.number (q.seat : ℚ)) v) = some p) :
    RoomInv { r with viewers := setAdd r.viewers v } where
  seats := h.seats
  roles := h.roles
  unviewed := h.unviewed
  phantom := h.phantom
  morgan := h.morgan
  viewersNodup := nodup_setAdd _ _ h.viewersNodup
  viewersRange := by
    intro w hw
    rcases (mem_setAdd _ _ _).mp hw with hw | rfl
    · exact h.viewersRange w hw
    · obtain ⟨hp, hv⟩ := find_seat_spec r _ p hf
      have hr := h.seat_range hp
      exact ⟨p.seat, hr.1, hr.2, hv⟩

theorem StoreInv.mapSet {g : GameRooms} (h : StoreInv g) (key : String) (r : Room)
    (hr : RoomInv r) (hc : r.code = key) : StoreInv (mapSet g key r) where
  keys := nodup_keys_mapSet g key r h.keys
  rooms := by
    intro e he
    rcases mem_mapSet g key r e he with he | rfl
    · exact h.rooms e he
    · exact ⟨hr, hc⟩

theorem StoreInv.get {g : GameRooms} (h : StoreInv g) {key : String} {r : Room}
    (hg : mapGet g key = some r) : RoomInv r ∧ r.code = key :=
  h.rooms (key, r) (mapGet_mem g key r hg)

theorem StoreInv.step {g : GameRooms} (h : StoreInv g) (op : Op) : StoreInv (op.run g) := by
  cases op with
  | create random σ now =>
    simp only [Op.run, createGameRoom_eq]
    exact h.mapSet _ _ (freshRoom_inv _ σ now) rfl
  | reveal roomCode seatNumber =>
    simp only [Op.run, getPlayerInfo]
    cases hg : mapGet g roomCode with
    | none => exact h
    | some room =>
      simp only
      cases hf : room.players.find? (fun p => strictEq (.number (p.seat : ℚ)) seatNumber) with
      | none => exact h
      | some player =>
        simp only
        exact h.mapSet _ _ ((h.get hg).1.reveal hf) (h.get hg).2
  | status roomCode => exact h
  | cleanup now =>
    simp only [Op.run, cleanupOldRooms_eq]
    refine ⟨?_, ?_⟩
    · exact (List.filter_sublist g).map Prod.fst |>.nodup h.keys
    · intro e he
      exact h.rooms e (List.mem_of_mem_filter he)

theorem Reachable.inv {g : GameRooms} (h : Reachable g) : StoreInv g := by
  induction h with
  | empty => exact ⟨List.nodup_nil, fun e he => absurd he (List.not_mem_nil e)⟩
  | step op _ ih => exact ih.step op

theorem RoomInv.unique_role {r : Room} (h : RoomInv r) (name : String)
    (hone : (ROLES.filter (fun d => decide (d.name = name))).length = 1) {p q : Player}
    (hp : p ∈ r.players) (hq : q ∈ r.players) (hpr : p.role = name) (hqr : q.role = name) :
    p = q := by
  have hperm := h.roles.filter (fun d => decide (d.name = name))
  rw [List.filter_map] at hperm
  have hlen := hperm.length_eq
  rw [List.length_map, hone] at hlen
  obtain ⟨x, hx⟩ := List.length_eq_one.mp hlen
  have hp₁ : p ∈ r.players.filter ((fun d => decide (d.name = name)) ∘ Player.toRole) :=
    List.mem_filter.mpr ⟨hp, by simpa [Player.toRole] using hpr⟩
  have hq₁ : q ∈ r.players.filter ((fun d => decide (d.name = name)) ∘ Player.toRole) :=
    List.mem_filter.mpr ⟨hq, by simpa [Player.toRole] using hqr⟩
  rw [hx, List.mem_singleton] at hp₁ hq₁
  rw [hp₁, hq₁]

theorem RoomInv.role_of_purple {r : Room} (h : RoomInv r) {p : Player} (hp : p ∈ r.players)
    (ht : p.team = "purple") :
    p.role = "幻妖" ∧ p.description = "邪恶阵营的迷惑者" := by
  rcases h.slot_cases hp with h₁ | h₁ | h₁
  · rw [h₁.2.1] at ht; exact absurd ht (by decide)
  · exact ⟨h₁.1, h₁.2.2⟩
  · rw [h₁.2.1] at ht; exact absurd ht (by decide)

theorem RoomInv.role_of_red {r : Room} (h : RoomInv r) {p : Player} (hp : p ∈ r.players)
    (ht : p.team = "red") :
    p.role = "摩根勒菲" ∧ p.description = "邪恶的女巫" := by
  rcases h.slot_cases hp with h₁ | h₁ | h₁
  · rw [h₁.2.1] at ht; exact absurd ht (by decide)
  · rw [h₁.2.1] at ht; exact absurd ht (by decide)
  · exact ⟨h₁.1, h₁.2.2⟩

theorem RoomInv.role_of_blue {r : Room} (h : RoomInv r) {p : Player} (hp : p ∈ r.players)
    (ht : p.team = "blue") :
    p.role = "忠臣" ∧ p.description = "忠诚的圆桌骑士" := by
  rcases h.slot_cases hp with h₁ | h₁ | h₁
  · exact ⟨h₁.1, h₁.2.2⟩
  · rw [h₁.2.1] at ht; exact absurd ht (by decide)
  · rw [h₁.2.1] at ht; exact absurd ht (by decide)

/-- The purple-team slot is the one at `phantomSeat`, and no other. -/
theorem RoomInv.purple_iff {r : Room} (h : RoomInv r) {q : Player} (hq : q ∈ r.players) :
    q.team = "purple" ↔ q.seat = r.phantomSeat := by
  obtain ⟨p, hp, hps, hpr⟩ := h.phantom
  constructor
  · intro ht
    rw [← hps, h.unique_role "幻妖" (by decide) hq hp (h.role_of_purple hq ht).1 hpr]
  · intro hs
    rw [h.seat_inj hq hp (by rw [hs, hps])]
    rcases h.slot_cases hp with h₁ | h₁ | h₁
    · rw [h₁.1] at hpr; exact absurd hpr (by decide)
    · exact h₁.2.1
    · rw [h₁.1] at hpr; exact absurd hpr (by decide)

/-- A reveal of a held seat: the new store and the view, spelled out. -/
theorem getPlayerInfo_of_mem {g : GameRooms} (hinv : StoreInv g) {code : String} {room : Room}
    (hm : mapGet g code = some room) {p : Player} (hp : p ∈ room.players) :
    getPlayerInfo g code (.number (p.seat : ℚ)) =
      (mapSet g code { room with viewers := setAdd room.viewers (.number (p.seat : ℚ)) },
        some { seat := p.seat, role := p.role, team := p.team, description := p.description,
               specialInfo := specialInfoOf room p }) := by
  simp only [getPlayerInfo, hm, (hinv.get hm).1.find_seat hp]

/-! ## A concrete run -/

theorem generateRoomCode_zeroDraws : generateRoomCode zeroDraws = "AAAA" := by
  simp [generateRoomCode, zeroDraws, List.range, List.range.loop, charAt, chars]
  rfl

theorem freshRoom_swapEnds : freshRoom "AAAA" swapEnds 1000 = sampleRoom := by
  decide

theorem sampleStore_eq : sampleStore = [("AAAA", sampleRoom)] := by
  rw [sampleStore, createGameRoom_eq, generateRoomCode_zeroDraws, freshRoom_swapEnds]
  rfl

theorem otherStore_eq : otherStore = [("AAAA", otherRoom)] := by
  have h : freshRoom "AAAA" swapSecondLast 2000 = otherRoom := by decide
  rw [otherStore, createGameRoom_eq, generateRoomCode_zeroDraws, h]
  rfl

theorem otherStore_reachable : Reachable otherStore :=
  Reachable.step (.create zeroDraws swapSecondLast 2000) Reachable.empty

theorem sampleStore_reachable : Reachable sampleStore :=
  Reachable.step (.create zeroDraws swapEnds 1000) Reachable.empty

/-! ## Room creation -/

/-- C1: for every prior store, every draw sequence behind the generated code, every
outcome of the shuffle and every time `now`, `createGameRoom` stores under the code it
returns a room with exactly 5 player slots whose `(role, team, description)` records are
a permutation of the 5-entry `ROLES` catalog (teams 3 blue, 1 purple, 1 red), whose seats
are `1,2,3,4,5` in that order, whose `viewed` flags are all false, whose `viewers` set is
empty and whose `createdAt` is `now`. -/
theorem createGameRoom_stores_fresh_room (g : GameRooms) (random : Nat → ℚ)
    (σ : Equiv.Perm (Fin 5)) (now : Int) :
    ∃ room : Room,
      mapGet (createGameRoom g random σ now).1 (createGameRoom g random σ now).2 = some room
      ∧ room.players.length = 5
      ∧ ROLES.length = 5
      ∧ (room.players.map Player.toRole).Perm ROLES
      ∧ ROLES.map (fun r => r.team) = ["blue", "blue", "blue", "purple", "red"]
      ∧ (room.players.map (fun p => p.team)).count "blue" = 3
      ∧ (room.players.map (fun p => p.team)).count "purple" = 1
      ∧ (room.players.map (fun p => p.team)).count "red" = 1
      ∧ room.players.map (fun p => p.seat) = [1, 2, 3, 4, 5]
      ∧ (∀ p ∈ room.players, p.viewed = false)
      ∧ room.viewers = []
      ∧ room.createdAt = now := by
  have hinv := freshRoom_inv (generateRoomCode random) σ now
  have hteams : ((freshRoom (generateRoomCode random) σ now).players.map (fun p => p.team)).Perm
      ["blue", "blue", "blue", "purple", "red"] := by
    have := hinv.roles.map (fun r => r.team)
    simpa [List.map_map, Function.comp_def, Player.toRole, ROLES] using this
  refine ⟨freshRoom (generateRoomCode random) σ now, ?_, ?_, rfl, hinv.roles, rfl, ?_, ?_, ?_,
    hinv.seats, hinv.unviewed, rfl, rfl⟩
  · rw [createGameRoom_eq]
    exact mapGet_mapSet_self _ _ _
  · have := congrArg List.length hinv.seats
    simpa using this
  · rw [hteams.count_eq]; decide
  · rw [hteams.count_eq]; decide
  · rw [hteams.count_eq]; decide

/-- C2: in every state reachable from the empty store every stored room has 5 player
slots, `phantomSeat` and `morganSeat` are both set (not `-1`) and differ, a slot sits at
`phantomSeat` and every slot there has team purple, a slot sits at `morganSeat` and every
slot there has team red. -/
theorem reachable_room_special_seats (g : GameRooms) (e : String × Room)
    (hg : Reachable g) (he : e ∈ g) :
    e.2.players.length = 5
      ∧ e.2.phantomSeat ≠ -1
      ∧ e.2.morganSeat ≠ -1
      ∧ e.2.phantomSeat ≠ e.2.morganSeat
      ∧ (∃ p ∈ e.2.players, p.seat = e.2.phantomSeat)
      ∧ (∀ p ∈ e.2.players, p.seat = e.2.phantomSeat → p.team = "purple")
      ∧ (∃ p ∈ e.2.players, p.seat = e.2.morganSeat)
      ∧ (∀ p ∈ e.2.players, p.seat = e.2.morganSeat → p.team = "red") := by
  have hinv := (hg.inv.rooms e he).1
  obtain ⟨p, hp, hps, hpr⟩ := hinv.phantom
  obtain ⟨q, hq, hqs, hqr⟩ := hinv.morgan
  have hpteam : p.team = "purple" := by
    rcases hinv.slot_cases hp with h | h | h
    · rw [h.1] at hpr; exact absurd hpr (by decide)
    · exact h.2.1
    · rw [h.1] at hpr; exact absurd hpr (by decide)
  have hqteam : q.team = "red" := by
    rcases hinv.slot_cases hq with h | h | h
    · rw [h.1] at hqr; exact absurd hqr (by decide)
    · rw [h.1] at hqr; exact absurd hqr (by decide)
    · exact h.2.1
  have hpr5 := hinv.seat_range hp
  have hqr5 := hinv.seat_range hq
  refine ⟨?_, ?_, ?_, ?_, ⟨p, hp, hps⟩, ?_, ⟨q, hq, hqs⟩, ?_⟩
  · have := congrArg List.length hinv.seats
    simpa using this
  · omega
  · omega
  · intro heq
    have hpq : p = q := hinv.seat_inj hp hq (by rw [hps, hqs, heq])
    rw [hpq, hqr] at hpr
    exact absurd hpr (by decide)
  · intro p₂ hp₂ hs
    rw [hinv.seat_inj hp₂ hp (by rw [hs, hps])]
    exact hpteam
  · intro q₂ hq₂ hs
    rw [hinv.seat_inj hq₂ hq (by rw [hs, hqs])]
    exact hqteam

/-- C2, at the store holding the one room `sampleRoom`. -/
theorem reachable_room_special_seats_witness :
    Reachable sampleStore ∧ ("AAAA", sampleRoom) ∈ sampleStore
      ∧ sampleRoom.players.length = 5
      ∧ sampleRoom.phantomSeat ≠ -1
      ∧ sampleRoom.morganSeat ≠ -1
      ∧ sampleRoom.phantomSeat ≠ sampleRoom.morganSeat
      ∧ (∃ p ∈ sampleRoom.players, p.seat = sampleRoom.phantomSeat)
      ∧ (∀ p ∈ sampleRoom.players, p.seat = sampleRoom.phantomSeat → p.team = "purple")
      ∧ (∃ p ∈ sampleRoom.players, p.seat = sampleRoom.morganSeat)
      ∧ (∀ p ∈ sampleRoom.players, p.seat = sampleRoom.morganSeat → p.team = "red") :=
  have hmem : ("AAAA", sampleRoom) ∈ sampleStore := by rw [sampleStore_eq]; simp
  ⟨sampleStore_reachable, hmem,
    reachable_room_special_seats sampleStore ("AAAA", sampleRoom) sampleStore_reachable hmem⟩

/-! ## Reveal: what each team is shown -/

/-- C3, as stated, fails: in the reachable store `sampleStore` seat 1 holds the red-team
role, and the view returned for it carries no `specialInfo` of type `red_knows_purple`
(its type is `morgan_knows_phantom`). -/
theorem reveal_red_type_counterexample :
    Reachable sampleStore ∧ mapGet sampleStore "AAAA" = some sampleRoom
      ∧ (∃ p ∈ sampleRoom.players, p.seat = 1 ∧ p.team = "red")
      ∧ (getPlayerInfo sampleStore "AAAA" (.number 1)).2 =
          some { seat := 1, role := "摩根勒菲", team := "red", description := "邪恶的女巫",
                 specialInfo := some { type := "morgan_knows_phantom",
                                       phantomSeat := some 4, message := none } }
      ∧ ¬ ∃ info si, (getPlayerInfo sampleStore "AAAA" (.number 1)).2 = some info
            ∧ info.specialInfo = some si ∧ si.type = "red_knows_purple" := by
  have hval : (getPlayerInfo sampleStore "AAAA" (.number 1)).2 =
      some { seat := 1, role := "摩根勒菲", team := "red", description := "邪恶的女巫",
             specialInfo := some { type := "morgan_knows_phantom",
                                   phantomSeat := some 4, message := none } } := by
    rw [sampleStore_eq]; decide
  refine ⟨sampleStore_reachable, by rw [sampleStore_eq]; decide, by decide, hval, ?_⟩
  rintro ⟨info, si, h₁, h₂, h₃⟩
  rw [hval] at h₁
  injection h₁ with h₁
  subst h₁
  injection h₂ with h₂
  subst h₂
  exact absurd h₃ (by decide)

/-- C3, amended: for every reachable room, revealing the seat that holds the red-team
role returns a view whose `specialInfo` has type `morgan_knows_phantom` and whose
`phantomSeat` field equals the room's `phantomSeat`, which is the seat of the one slot
holding the purple-team role. -/
theorem reveal_red_seat (g : GameRooms) (code : String) (room : Room) (p : Player)
    (hg : Reachable g) (hm : mapGet g code = some room) (hp : p ∈ room.players)
    (ht : p.team = "red") :
    (∃ info, (getPlayerInfo g code (.number (p.seat : ℚ))).2 = some info
        ∧ info.specialInfo = some { type := "morgan_knows_phantom",
                                    phantomSeat := some room.phantomSeat, message := none })
      ∧ (∃ q ∈ room.players, q.seat = room.phantomSeat)
      ∧ (∀ q ∈ room.players, q.team = "purple" ↔ q.seat = room.phantomSeat) := by
  have hinv := (hg.inv.get hm).1
  have hrole := (hinv.role_of_red hp ht).1
  obtain ⟨q, hq, hqs, _⟩ := hinv.phantom
  have hne : room.phantomSeat ≠ -1 := by
    have := hinv.seat_range hq
    omega
  refine ⟨⟨_, by rw [getPlayerInfo_of_mem hg.inv hm hp], ?_⟩, ⟨q, hq, hqs⟩,
    fun q hq => hinv.purple_iff hq⟩
  have h₁ : ¬ ("摩根勒菲" = "幻妖") := by decide
  simp [specialInfoOf, hrole, hne, h₁]

/-- C3 amended, at seat 1 of `sampleRoom`. -/
theorem reveal_red_seat_witness :
    Reachable sampleStore ∧ mapGet sampleStore "AAAA" = some sampleRoom
      ∧ (∃ info, (getPlayerInfo sampleStore "AAAA" (.number ((1 : Int) : ℚ))).2 = some info
          ∧ info.specialInfo = some { type := "morgan_knows_phantom",
                                      phantomSeat := some sampleRoom.phantomSeat,
                                      message := none })
      ∧ (∃ q ∈ sampleRoom.players, q.seat = sampleRoom.phantomSeat)
      ∧ (∀ q ∈ sampleRoom.players, q.team = "purple" ↔ q.seat = sampleRoom.phantomSeat) :=
  have hm : mapGet sampleStore "AAAA" = some sampleRoom := by rw [sampleStore_eq]; decide
  ⟨sampleStore_reachable, hm,
    reveal_red_seat sampleStore "AAAA" sampleRoom
      { seat := 1, role := "摩根勒菲", team := "red", description := "邪恶的女巫",
        viewed := false }
      sampleStore_reachable hm (by decide) rfl⟩

/-- C4, as stated, fails: in the reachable store `sampleStore` seat 4 holds the
purple-team role, and the view returned for it carries no `specialInfo` of type
`purple_info` (its type is `phantom_info`). -/
theorem reveal_purple_type_counterexample :
    Reachable sampleStore ∧ mapGet sampleStore "AAAA" = some sampleRoom
      ∧ (∃ p ∈ sampleRoom.players, p.seat = 4 ∧ p.team = "purple")
      ∧ (getPlayerInfo sampleStore "AAAA" (.number 4)).2 =
          some { seat := 4, role := "幻妖", team := "purple",
                 description := "邪恶阵营的迷惑者",
                 specialInfo := some { type := "phantom_info", phantomSeat := none,
                                       message := some "摩根勒菲认识你，但你不知道她是谁" } }
      ∧ ¬ ∃ info si, (getPlayerInfo sampleStore "AAAA" (.number 4)).2 = some info
            ∧ info.specialInfo = some si ∧ si.type = "purple_info" := by
  have hval : (getPlayerInfo sampleStore "AAAA" (.number 4)).2 =
      some { seat := 4, role := "幻妖", team := "purple",
             description := "邪恶阵营的迷惑者",
             specialInfo := some { type := "phantom_info", phantomSeat := none,
                                   message := some "摩根勒菲认识你，但你不知道她是谁" } } := by
    rw [sampleStore_eq]; decide
  refine ⟨sampleStore_reachable, by rw [sampleStore_eq]; decide, by decide, hval, ?_⟩
  rintro ⟨info, si, h₁, h₂, h₃⟩
  rw [hval] at h₁
  injection h₁ with h₁
  subst h₁
  injection h₂ with h₂
  subst h₂
  exact absurd h₃ (by decide)

/-- C4, amended: for every reachable room, revealing the seat that holds the purple-team
role returns exactly the view `{seat, role "幻妖", team "purple", description,
specialInfo}` whose `specialInfo` has type `phantom_info`, the fixed message and no
`phantomSeat` field; and for two reachable rooms in which the purple role sits at the same
seat the two views are equal, wherever the red and the blue roles sit. -/
theorem reveal_purple_seat (g₁ g₂ : GameRooms) (code₁ code₂ : String) (room₁ room₂ : Room)
    (p₁ p₂ : Player)
    (hg₁ : Reachable g₁) (hg₂ : Reachable g₂)
    (hm₁ : mapGet g₁ code₁ = some room₁) (hm₂ : mapGet g₂ code₂ = some room₂)
    (hp₁ : p₁ ∈ room₁.players) (hp₂ : p₂ ∈ room₂.players)
    (ht₁ : p₁.team = "purple") (ht₂ : p₂.team = "purple") (hs : p₁.seat = p₂.seat) :
    (getPlayerInfo g₁ code₁ (.number (p₁.seat : ℚ))).2 =
        some { seat := p₁.seat, role := "幻妖", team := "purple",
               description := "邪恶阵营的迷惑者",
               specialInfo := some { type := "phantom_info", phantomSeat := none,
                                     message := some "摩根勒菲认识你，但你不知道她是谁" } }
      ∧ (getPlayerInfo g₂ code₂ (.number (p₂.seat : ℚ))).2 =
          (getPlayerInfo g₁ code₁ (.number (p₁.seat : ℚ))).2 := by
  have key : ∀ (g : GameRooms) (code : String) (room : Room) (p : Player), Reachable g →
      mapGet g code = some room → p ∈ room.players → p.team = "purple" →
      (getPlayerInfo g code (.number (p.seat : ℚ))).2 =
        some { seat := p.seat, role := "幻妖", team := "purple",
               description := "邪恶阵营的迷惑者",
               specialInfo := some { type := "phantom_info", phantomSeat := none,
                                     message := some "摩根勒菲认识你，但你不知道她是谁" } } := by
    intro g code room p hg hm hp ht
    have hr := (hg.inv.get hm).1.role_of_purple hp ht
    rw [getPlayerInfo_of_mem hg.inv hm hp]
    simp [specialInfoOf, hr.1, hr.2, ht]
  refine ⟨key g₁ code₁ room₁ p₁ hg₁ hm₁ hp₁ ht₁, ?_⟩
  rw [key g₁ code₁ room₁ p₁ hg₁ hm₁ hp₁ ht₁, key g₂ code₂ room₂ p₂ hg₂ hm₂ hp₂ ht₂, hs]

/-- C4 amended, at seat 4 of `sampleRoom` (red at seat 1) and of `otherRoom` (red at
seat 2). -/
theorem reveal_purple_seat_witness :
    Reachable sampleStore ∧ Reachable otherStore
      ∧ mapGet sampleStore "AAAA" = some sampleRoom ∧ mapGet otherStore "AAAA" = some otherRoom
      ∧ sampleRoom.morganSeat ≠ otherRoom.morganSeat
      ∧ (getPlayerInfo sampleStore "AAAA" (.number ((4 : Int) : ℚ))).2 =
          some { seat := 4, role := "幻妖", team := "purple",
                 description := "邪恶阵营的迷惑者",
                 specialInfo := some { type := "phantom_info", phantomSeat := none,
                                       message := some "摩根勒菲认识你，但你不知道她是谁" } }
      ∧ (getPlayerInfo otherStore "AAAA" (.number ((4 : Int) : ℚ))).2 =
          (getPlayerInfo sampleStore "AAAA" (.number ((4 : Int) : ℚ))).2 :=
  have hm₁ : mapGet sampleStore "AAAA" = some sampleRoom := by rw [sampleStore_eq]; decide
  have hm₂ : mapGet otherStore "AAAA" = some otherRoom := by rw [otherStore_eq]; decide
  ⟨sampleStore_reachable, otherStore_reachable, hm₁, hm₂, by decide,
    reveal_purple_seat sampleStore otherStore "AAAA" "AAAA" sampleRoom otherRoom
      { seat := 4, role := "幻妖", team := "purple", description := "邪恶阵营的迷惑者",
        viewed := false }
      { seat := 4, role := "幻妖", team := "purple", description := "邪恶阵营的迷惑者",
        viewed := false }
      sampleStore_reachable otherStore_reachable hm₁ hm₂ (by decide) (by decide) rfl rfl rfl⟩

/-- C5: for every reachable room and every seat holding a blue-team role,
`getPlayerInfo` returns the view `{seat, role "忠臣", team "blue", description}` with no
`specialInfo` field; so for two reachable rooms with a blue role at the same seat the two
views are equal, whatever seats the purple and red roles occupy. -/
theorem reveal_blue_seat (g₁ g₂ : GameRooms) (code₁ code₂ : String) (room₁ room₂ : Room)
    (p₁ p₂ : Player)
    (hg₁ : Reachable g₁) (hg₂ : Reachable g₂)
    (hm₁ : mapGet g₁ code₁ = some room₁) (hm₂ : mapGet g₂ code₂ = some room₂)
    (hp₁ : p₁ ∈ room₁.players) (hp₂ : p₂ ∈ room₂.players)
    (ht₁ : p₁.team = "blue") (ht₂ : p₂.team = "blue") (hs : p₁.seat = p₂.seat) :
    (∃ info, (getPlayerInfo g₁ code₁ (.number (p₁.seat : ℚ))).2 = some info
        ∧ info.specialInfo = none)
      ∧ (getPlayerInfo g₁ code₁ (.number (p₁.seat : ℚ))).2 =
        some { seat := p₁.seat, role := "忠臣", team := "blue",
               description := "忠诚的圆桌骑士", specialInfo := none }
      ∧ (getPlayerInfo g₂ code₂ (.number (p₂.seat : ℚ))).2 =
          (getPlayerInfo g₁ code₁ (.number (p₁.seat : ℚ))).2 := by
  have key : ∀ (g : GameRooms) (code : String) (room : Room) (p : Player), Reachable g →
      mapGet g code = some room → p ∈ room.players → p.team = "blue" →
      (getPlayerInfo g code (.number (p.seat : ℚ))).2 =
        some { seat := p.seat, role := "忠臣", team := "blue",
               description := "忠诚的圆桌骑士", specialInfo := none } := by
    intro g code room p hg hm hp ht
    have hr := (hg.inv.get hm).1.role_of_blue hp ht
    rw [getPlayerInfo_of_mem hg.inv hm hp]
    have h₁ : ¬ ("忠臣" = "幻妖") := by decide
    have h₂ : ¬ ("忠臣" = "摩根勒菲") := by decide
    simp [specialInfoOf, hr.1, hr.2, ht, h₁, h₂]
  refine ⟨⟨_, key g₁ code₁ room₁ p₁ hg₁ hm₁ hp₁ ht₁, rfl⟩,
    key g₁ code₁ room₁ p₁ hg₁ hm₁ hp₁ ht₁, ?_⟩
  rw [key g₁ code₁ room₁ p₁ hg₁ hm₁ hp₁ ht₁, key g₂ code₂ room₂ p₂ hg₂ hm₂ hp₂ ht₂, hs]

/-- C5, at seat 3 of `sampleRoom` (purple 4, red 1) and of `otherRoom` (purple 4,
red 2). -/
theorem reveal_blue_seat_witness :
    Reachable sampleStore ∧ Reachable otherStore
      ∧ mapGet sampleStore "AAAA" = some sampleRoom ∧ mapGet otherStore "AAAA" = some otherRoom
      ∧ (∃ info, (getPlayerInfo sampleStore "AAAA" (.number ((3 : Int) : ℚ))).2 = some info
          ∧ info.specialInfo = none)
      ∧ (getPlayerInfo sampleStore "AAAA" (.number ((3 : Int) : ℚ))).2 =
          some { seat := 3, role := "忠臣", team := "blue",
                 description := "忠诚的圆桌骑士", specialInfo := none }
      ∧ (getPlayerInfo otherStore "AAAA" (.number ((3 : Int) : ℚ))).2 =
          (getPlayerInfo sampleStore "AAAA" (.number ((3 : Int) : ℚ))).2 :=
  have hm₁ : mapGet sampleStore "AAAA" = some sampleRoom := by rw [sampleStore_eq]; decide
  have hm₂ : mapGet otherStore "AAAA" = some otherRoom := by rw [otherStore_eq]; decide
  ⟨sampleStore_reachable, otherStore_reachable, hm₁, hm₂,
    reveal_blue_seat sampleStore otherStore "AAAA" "AAAA" sampleRoom otherRoom
      { seat := 3, role := "忠臣", team := "blue", description := "忠诚的圆桌骑士",
        viewed := false }
      { seat := 3, role := "忠臣", team := "blue", description := "忠诚的圆桌骑士",
        viewed := false }
      sampleStore_reachable otherStore_reachable hm₁ hm₂ (by decide) (by decide) rfl rfl rfl⟩

/-! ## Reveal: seats in and out of range -/

/-- C6: for every reachable state, every code of a stored room and every integer seat `s`
with `1 ≤ s ≤ 5`, `getPlayerInfo` succeeds, and the view has seat `s` and the role name,
team and description of the room's slot bound to seat `s`; the `get-role` handler then
answers `success: true` with that view, so its lookup-failure branch is not taken. -/
theorem getPlayerInfo_seat_in_range (strToNum : String → Option ℚ) (g : GameRooms)
    (code : String) (room : Room) (s : Int)
    (hg : Reachable g) (hm : mapGet g code = some room) (h₁ : 1 ≤ s) (h₅ : s ≤ 5) :
    ∃ p info, p ∈ room.players ∧ p.seat = s
      ∧ room.players.find? (fun q => strictEq (.number (q.seat : ℚ)) (.number (s : ℚ))) = some p
      ∧ (getPlayerInfo g code (.number (s : ℚ))).2 = some info
      ∧ info.seat = s ∧ info.role = p.role ∧ info.team = p.team
      ∧ info.description = p.description
      ∧ (getRole strToNum g code (.number (s : ℚ))).2.success = true
      ∧ (getRole strToNum g code (.number (s : ℚ))).2.player = some info := by
  have hinv := (hg.inv.get hm).1
  obtain ⟨p, hp, hps⟩ := hinv.exists_seat h₁ h₅
  subst hps
  have hval := getPlayerInfo_of_mem hg.inv hm hp
  have hlt₁ : ¬ ((p.seat : ℚ) < 1) := by
    have : ((1 : Int) : ℚ) ≤ (p.seat : ℚ) := by exact_mod_cast h₁
    simpa using this
  have hlt₅ : ¬ ((5 : ℚ) < (p.seat : ℚ)) := by
    have : (p.seat : ℚ) ≤ ((5 : Int) : ℚ) := by exact_mod_cast h₅
    simpa using this
  refine ⟨p, _, hp, rfl, hinv.find_seat hp, by rw [hval], rfl, rfl, rfl, rfl, ?_, ?_⟩
  · simp only [getRole, hm, toNumber, jsLt, hlt₁, hlt₅, hval]
    simp
  · simp only [getRole, hm, toNumber, jsLt, hlt₁, hlt₅, hval]
    simp

/-- C6, at seat 2 of `sampleRoom`. -/
theorem getPlayerInfo_seat_in_range_witness :
    Reachable sampleStore ∧ mapGet sampleStore "AAAA" = some sampleRoom
      ∧ ∃ p info, p ∈ sampleRoom.players ∧ p.seat = 2
        ∧ sampleRoom.players.find?
            (fun q => strictEq (.number (q.seat : ℚ)) (.number ((2 : Int) : ℚ))) = some p
        ∧ (getPlayerInfo sampleStore "AAAA" (.number ((2 : Int) : ℚ))).2 = some info
        ∧ info.seat = 2 ∧ info.role = p.role ∧ info.team = p.team
        ∧ info.description = p.description
        ∧ (getRole (fun _ => none) sampleStore "AAAA" (.number ((2 : Int) : ℚ))).2.success = true
        ∧ (getRole (fun _ => none) sampleStore "AAAA" (.number ((2 : Int) : ℚ))).2.player
            = some info :=
  have hm : mapGet sampleStore "AAAA" = some sampleRoom := by rw [sampleStore_eq]; decide
  ⟨sampleStore_reachable, hm,
    getPlayerInfo_seat_in_range (fun _ => none) sampleStore "AAAA" sampleRoom 2
      sampleStore_reachable hm (by decide) (by decide)⟩

/-- C7: for every reachable state, every room code and every integer seat `s` with
`s < 1` or `s > 5`, the `get-role` handler answers `success: false` and hands back the
store unchanged; `getPlayerInfo` called directly with such a seat returns `null` and the
unchanged store, and so it does, for any seat value, with a code that has no room. -/
theorem invalid_seat_rejected (strToNum : String → Option ℚ) (g : GameRooms)
    (code : String) (s : Int) (hg : Reachable g) (hs : s < 1 ∨ s > 5) :
    (getRole strToNum g code (.number (s : ℚ))).2.success = false
      ∧ (getRole strToNum g code (.number (s : ℚ))).1 = g
      ∧ getPlayerInfo g code (.number (s : ℚ)) = (g, none)
      ∧ (∀ (code₂ : String) (seat : JsValue), mapGet g code₂ = none →
          getPlayerInfo g code₂ seat = (g, none)) := by
  have hdirect : getPlayerInfo g code (.number (s : ℚ)) = (g, none) := by
    unfold getPlayerInfo
    cases hm : mapGet g code with
    | none => rfl
    | some room =>
      have hnone := (hg.inv.get hm).1.find_none (.number (s : ℚ)) (by
        intro k hk₁ hk₅ heq
        have := (number_cast_inj s k).mp heq
        omega)
      simp only [hnone]
  have hcmp : (jsLt (some (s : ℚ)) (some 1) || jsLt (some 5) (some (s : ℚ))) = true := by
    rcases hs with hs | hs
    · have : (s : ℚ) < ((1 : Int) : ℚ) := by exact_mod_cast hs
      simp only [jsLt, Bool.or_eq_true, decide_eq_true_eq]
      left
      simpa using this
    · have : ((5 : Int) : ℚ) < (s : ℚ) := by exact_mod_cast hs
      simp only [jsLt, Bool.or_eq_true, decide_eq_true_eq]
      right
      simpa using this
  refine ⟨?_, ?_, hdirect, ?_⟩
  · unfold getRole
    cases hm : mapGet g code with
    | none => rfl
    | some room => simp only [toNumber, hcmp, if_true]
  · unfold getRole
    cases hm : mapGet g code with
    | none => rfl
    | some room => simp only [toNumber, hcmp, if_true]
  · intro code₂ seat hm
    simp only [getPlayerInfo, hm]

/-- C7, at seat 0 of the room `AAAA` of `sampleStore`. -/
theorem invalid_seat_rejected_witness :
    Reachable sampleStore ∧ ((0 : Int) < 1 ∨ (0 : Int) > 5)
      ∧ (getRole (fun _ => none) sampleStore "AAAA" (.number ((0 : Int) : ℚ))).2.success = false
      ∧ (getRole (fun _ => none) sampleStore "AAAA" (.number ((0 : Int) : ℚ))).1 = sampleStore
      ∧ getPlayerInfo sampleStore "AAAA" (.number ((0 : Int) : ℚ)) = (sampleStore, none)
      ∧ (∀ (code₂ : String) (seat : JsValue), mapGet sampleStore code₂ = none →
          getPlayerInfo sampleStore code₂ seat = (sampleStore, none)) :=
  ⟨sampleStore_reachable, Or.inl (by decide),
    invalid_seat_rejected (fun _ => none) sampleStore "AAAA" 0 sampleStore_reachable
      (Or.inl (by decide))⟩

/-! ## Reveal: the viewers set -/

theorem getRoomStatus_eq_some {g : GameRooms} {c : String} {st : RoomStatus}
    (h : getRoomStatus g c = some st) :
    ∃ room, mapGet g c = some room ∧ st.viewedPlayers = (room.viewers.length : Int) := by
  unfold getRoomStatus at h
  cases hm : mapGet g c with
  | none => simp [hm] at h
  | some room =>
    simp only [hm, Option.some.injEq] at h
    exact ⟨room, rfl, by rw [← h]⟩

/-- One call never shrinks the viewers set of a room that stays stored. -/
theorem step_viewers_length (g : GameRooms) (op : Op) (c : String) (room₁ room₂ : Room)
    (hop : ∀ random σ now, op = .create random σ now → generateRoomCode random ≠ c)
    (hb : mapGet g c = some room₁) (ha : mapGet (op.run g) c = some room₂) :
    room₁.viewers.length ≤ room₂.viewers.length := by
  cases op with
  | create random σ now =>
    simp only [Op.run, createGameRoom_eq] at ha
    rw [mapGet_mapSet_ne _ _ _ _ (hop random σ now rfl), hb] at ha
    injection ha with ha
    rw [ha]
  | reveal roomCode seatNumber =>
    simp only [Op.run, getPlayerInfo] at ha
    cases hm : mapGet g roomCode with
    | none =>
      simp only [hm] at ha
      rw [hb] at ha; injection ha with ha; rw [ha]
    | some room =>
      simp only [hm] at ha
      cases hf : room.players.find? (fun p => strictEq (.number (p.seat : ℚ)) seatNumber) with
      | none =>
        simp only [hf] at ha
        rw [hb] at ha; injection ha with ha; rw [ha]
      | some player =>
        simp only [hf] at ha
        by_cases hc : roomCode = c
        · subst hc
          rw [mapGet_mapSet_self] at ha
          rw [hb] at hm
          injection hm with hm
          injection ha with ha
          rw [← ha, hm]
          exact length_le_setAdd _ _
        · rw [mapGet_mapSet_ne _ _ _ _ hc, hb] at ha
          injection ha with ha; rw [ha]
  | status roomCode =>
    simp only [Op.run] at ha
    rw [hb] at ha; injection ha with ha; rw [ha]
  | cleanup now =>
    simp only [Op.run, mapGet_cleanupOldRooms] at ha
    split at ha
    · rw [hb] at ha; injection ha with ha; rw [ha]
    · exact absurd ha (by simp)

/-- C8: a second `getPlayerInfo(code, seat)` right after a first one hands back the store
of the first call unchanged, so every room's `viewers` set and every `getRoomStatus`
answer (the `viewedPlayers` count with it) are as after the first call, and it returns the
same view. -/
theorem getPlayerInfo_twice (g : GameRooms) (code : String) (seat : JsValue) :
    (getPlayerInfo (getPlayerInfo g code seat).1 code seat).1 = (getPlayerInfo g code seat).1
      ∧ (getPlayerInfo (getPlayerInfo g code seat).1 code seat).2 = (getPlayerInfo g code seat).2
      ∧ (∀ c, (mapGet (getPlayerInfo (getPlayerInfo g code seat).1 code seat).1 c).map
                (fun r => r.viewers)
              = (mapGet (getPlayerInfo g code seat).1 c).map (fun r => r.viewers))
      ∧ (∀ c, getRoomStatus (getPlayerInfo (getPlayerInfo g code seat).1 code seat).1 c
              = getRoomStatus (getPlayerInfo g code seat).1 c) := by
  have key : getPlayerInfo (getPlayerInfo g code seat).1 code seat = getPlayerInfo g code seat := by
    cases hm : mapGet g code with
    | none =>
      have h₁ : getPlayerInfo g code seat = (g, none) := by simp only [getPlayerInfo, hm]
      rw [h₁, h₁]
    | some room =>
      cases hf : room.players.find? (fun p => strictEq (.number (p.seat : ℚ)) seat) with
      | none =>
        have h₁ : getPlayerInfo g code seat = (g, none) := by simp only [getPlayerInfo, hm, hf]
        rw [h₁, h₁]
      | some player =>
        have h₁ : getPlayerInfo g code seat =
            (mapSet g code { room with viewers := setAdd room.viewers seat },
              some { seat := player.seat, role := player.role, team := player.team,
                     description := player.description,
                     specialInfo := specialInfoOf room player }) := by
          simp only [getPlayerInfo, hm, hf]
        rw [h₁]
        simp only [getPlayerInfo, mapGet_mapSet_self, hf, setAdd_setAdd, mapSet_mapSet]
        rfl
  rw [key]
  exact ⟨rfl, rfl, fun _ => rfl, fun _ => rfl⟩

/-- C9: for every state and every single call (a reveal of any room and seat, a status
read, a sweep, or the creation of a room under a code other than `c`), if a room is stored
under `c` before and after the call then the `viewedPlayers` reported by
`getRoomStatus(c)` after it is at least the value before it. -/
theorem viewedPlayers_monotone (g : GameRooms) (op : Op) (c : String)
    (before after : RoomStatus)
    (hop : ∀ random σ now, op = .create random σ now → generateRoomCode random ≠ c)
    (hb : getRoomStatus g c = some before) (ha : getRoomStatus (op.run g) c = some after) :
    before.viewedPlayers ≤ after.viewedPlayers := by
  obtain ⟨room₁, hm₁, hv₁⟩ := getRoomStatus_eq_some hb
  obtain ⟨room₂, hm₂, hv₂⟩ := getRoomStatus_eq_some ha
  rw [hv₁, hv₂]
  exact_mod_cast step_viewers_length g op c room₁ room₂ hop hm₁ hm₂

/-- C9, at the reveal of seat 1 in `sampleStore`: the count goes from 0 to 1. -/
theorem viewedPlayers_monotone_witness :
    getRoomStatus sampleStore "AAAA"
        = some { code := "AAAA", totalPlayers := 5, viewedPlayers := 0, allViewed := false }
      ∧ getRoomStatus ((Op.reveal "AAAA" (.number 1)).run sampleStore) "AAAA"
        = some { code := "AAAA", totalPlayers := 5, viewedPlayers := 1, allViewed := false }
      ∧ (0 : Int) ≤ 1 :=
  have hb : getRoomStatus sampleStore "AAAA"
      = some { code := "AAAA", totalPlayers := 5, viewedPlayers := 0, allViewed := false } := by
    rw [sampleStore_eq]; decide
  have ha : getRoomStatus ((Op.reveal "AAAA" (.number 1)).run sampleStore) "AAAA"
      = some { code := "AAAA", totalPlayers := 5, viewedPlayers := 1, allViewed := false } := by
    rw [sampleStore_eq]; decide
  ⟨hb, ha,
    viewedPlayers_monotone sampleStore (.reveal "AAAA" (.number 1)) "AAAA"
      { code := "AAAA", totalPlayers := 5, viewedPlayers := 0, allViewed := false }
      { code := "AAAA", totalPlayers := 5, viewedPlayers := 1, allViewed := false }
      (fun _ _ _ h => by cases h) hb ha⟩

/-! ## Status after a sequence of reveals -/

theorem tracked_create (g : GameRooms) (random : Nat → ℚ) (σ : Equiv.Perm (Fin 5))
    (now : Int) :
    Tracked (createGameRoom g random σ now).2 [] (createGameRoom g random σ now).1 := by
  rw [createGameRoom_eq]
  refine ⟨_, mapGet_mapSet_self _ _ _, freshRoom_inv _ σ now, rfl, ?_⟩
  intro v
  simp [freshRoom]

theorem tracked_step (code : String) (done : List (String × JsValue)) (g : GameRooms)
    (e : String × JsValue) (h : Tracked code done g) :
    Tracked code (done ++ [e]) (getPlayerInfo g e.1 e.2).1 := by
  obtain ⟨room, hm, hinv, hcode, hv⟩ := h
  obtain ⟨c, v⟩ := e
  by_cases hc : c = code
  · subst hc
    cases hf : room.players.find? (fun p => strictEq (.number (p.seat : ℚ)) v) with
    | none =>
      have h₁ : getPlayerInfo g c v = (g, none) := by simp only [getPlayerInfo, hm, hf]
      rw [h₁]
      refine ⟨room, hm, hinv, hcode, ?_⟩
      intro w
      rw [hv w]
      constructor
      · rintro ⟨hk, hd⟩
        exact ⟨hk, List.mem_append_left _ hd⟩
      · rintro ⟨⟨k, hk₁, hk₅, rfl⟩, hd⟩
        refine ⟨⟨k, hk₁, hk₅, rfl⟩, ?_⟩
        rcases List.mem_append.mp hd with hd | hd
        · exact hd
        · simp only [List.mem_singleton, Prod.mk.injEq, true_and] at hd
          obtain ⟨p, hp, hps⟩ := hinv.exists_seat hk₁ hk₅
          have := hinv.find_seat hp
          rw [hps, hd, hf] at this
          exact absurd this (by simp)
    | some player =>
      have h₁ : (getPlayerInfo g c v).1 =
          mapSet g c { room with viewers := setAdd room.viewers v } := by
        simp only [getPlayerInfo, hm, hf]
      rw [h₁]
      refine ⟨_, mapGet_mapSet_self _ _ _, hinv.reveal hf, hcode, ?_⟩
      intro w
      obtain ⟨hp, hpv⟩ := find_seat_spec room v player hf
      have hr := hinv.seat_range hp
      simp only [mem_setAdd, hv w, List.mem_append, List.mem_singleton, Prod.mk.injEq,
        true_and]
      constructor
      · rintro (⟨hk, hd⟩ | rfl)
        · exact ⟨hk, Or.inl hd⟩
        · exact ⟨⟨player.seat, hr.1, hr.2, hpv⟩, Or.inr rfl⟩
      · rintro ⟨hk, hd | rfl⟩
        · exact Or.inl ⟨hk, hd⟩
        · exact Or.inr rfl
  · have h₁ : mapGet (getPlayerInfo g c v).1 code = mapGet g code := by
      simp only [getPlayerInfo]
      cases hm₂ : mapGet g c with
      | none => rfl
      | some room₂ =>
        simp only
        cases hf : room₂.players.find? (fun p => strictEq (.number (p.seat : ℚ)) v) with
        | none => rfl
        | some player => exact mapGet_mapSet_ne _ _ _ _ hc
    refine ⟨room, by rw [h₁, hm], hinv, hcode, ?_⟩
    intro w
    rw [hv w]
    have hne : ¬ (code = c) := fun h => hc h.symm
    simp [hne]

theorem tracked_run (code : String) (reveals done : List (String × JsValue)) (g : GameRooms)
    (h : Tracked code done g) : Tracked code (done ++ reveals) (runReveals g reveals) := by
  induction reveals generalizing done g with
  | nil => simpa [runReveals] using h
  | cons e l ih =>
    have := ih (done ++ [e]) _ (tracked_step code done g e h)
    simpa [runReveals, List.append_assoc] using this

theorem tracked_length (code : String) (reveals : List (String × JsValue)) (room : Room)
    (hinv : RoomInv room)
    (hv : ∀ v, v ∈ room.viewers ↔
        ((∃ k : Int, 1 ≤ k ∧ k ≤ 5 ∧ v = JsValue.number (k : ℚ)) ∧ (code, v) ∈ reveals)) :
    room.viewers.length = (revealedSeats reveals code).length := by
  have hinj : Function.Injective (fun k : Int => JsValue.number (k : ℚ)) :=
    fun a b hab => (number_cast_inj a b).mp hab
  have hnd : ((revealedSeats reveals code).map (fun k : Int => JsValue.number (k : ℚ))).Nodup :=
    List.Nodup.map hinj (List.Nodup.filter _ (by decide))
  have hperm : room.viewers.Perm
      ((revealedSeats reveals code).map (fun k : Int => JsValue.number (k : ℚ))) := by
    rw [List.perm_ext_iff_of_nodup hinv.viewersNodup hnd]
    intro v
    rw [hv v]
    simp only [revealedSeats, List.mem_map, List.mem_filter, decide_eq_true_eq, List.mem_cons,
      List.mem_singleton, List.not_mem_nil, or_false]
    constructor
    · rintro ⟨⟨k, hk₁, hk₅, rfl⟩, hd⟩
      exact ⟨k, ⟨by omega, hd⟩, rfl⟩
    · rintro ⟨k, ⟨hk, hd⟩, rfl⟩
      exact ⟨⟨k, by omega, by omega, rfl⟩, hd⟩
  rw [hperm.length_eq, List.length_map]

/-- C10: for a room created by `createGameRoom` and then any sequence of reveals (of
this or other rooms, with any seat values), `getRoomStatus` reports `viewedPlayers` equal
to the number of seats in `1..5` revealed for the room at least once, and `allViewed` true
exactly when each of the seats `1..5` has been revealed; after any reveals, a reveal of
the room is successful exactly when its seat value is a number in `1..5`. -/
theorem status_after_reveals (g : GameRooms) (random : Nat → ℚ) (σ : Equiv.Perm (Fin 5))
    (now : Int) (reveals : List (String × JsValue)) :
    getRoomStatus (runReveals (createGameRoom g random σ now).1 reveals)
        (createGameRoom g random σ now).2
      = some { code := (createGameRoom g random σ now).2,
               totalPlayers := 5,
               viewedPlayers :=
                 ((revealedSeats reveals (createGameRoom g random σ now).2).length : Int),
               allViewed := decide (∀ k ∈ ([1, 2, 3, 4, 5] : List Int),
                 ((createGameRoom g random σ now).2, JsValue.number (k : ℚ)) ∈ reveals) }
      ∧ ∀ (earlier : List (String × JsValue)) (v : JsValue),
          ((getPlayerInfo (runReveals (createGameRoom g random σ now).1 earlier)
              (createGameRoom g random σ now).2 v).2.isSome = true
            ↔ ∃ k : Int, 1 ≤ k ∧ k ≤ 5 ∧ v = JsValue.number (k : ℚ)) := by
  constructor
  · obtain ⟨room, hm, hinv, hcode, hv⟩ :=
      tracked_run _ reveals [] _ (tracked_create g random σ now)
    rw [List.nil_append] at hv
    have hlen := tracked_length _ reveals room hinv hv
    have hall : (room.viewers.length = 5) ↔ (∀ k ∈ ([1, 2, 3, 4, 5] : List Int),
        ((createGameRoom g random σ now).2, JsValue.number (k : ℚ)) ∈ reveals) := by
      rw [hlen]
      have h₅ : (5 : Nat) = ([1, 2, 3, 4, 5] : List Int).length := rfl
      rw [h₅, revealedSeats, List.filter_length_eq_length]
      simp only [decide_eq_true_eq]
    simp only [getRoomStatus, hm, hcode, hlen, Option.some.injEq, RoomStatus.mk.injEq,
      true_and]
    exact decide_eq_decide.mpr (by rw [← hlen]; exact hall)
  · intro l₁ v
    obtain ⟨room, hm, hinv, _, _⟩ := tracked_run _ l₁ [] _ (tracked_create g random σ now)
    constructor
    · intro hsome
      cases hf : room.players.find? (fun p => strictEq (.number (p.seat : ℚ)) v) with
      | none =>
        simp [getPlayerInfo, hm, hf] at hsome
      | some player =>
        obtain ⟨hp, hpv⟩ := find_seat_spec room v player hf
        have hr := hinv.seat_range hp
        exact ⟨player.seat, hr.1, hr.2, hpv⟩
    · rintro ⟨k, hk₁, hk₅, rfl⟩
      obtain ⟨p, hp, hps⟩ := hinv.exists_seat hk₁ hk₅
      have hf := hinv.find_seat hp
      rw [hps] at hf
      simp [getPlayerInfo, hm, hf]

/-! ## Status and expiry -/

/-- C11: for every store and code, `getRoomStatus(code)` returns `null` if and only if no
room is stored under `code`, and the `room-status` handler answers `success: false`
exactly then; otherwise `getRoomStatus` returns exactly `{code: the room's code,
totalPlayers: 5, viewedPlayers: size of the room's viewers, allViewed: (that size = 5)}`. -/
theorem getRoomStatus_spec (g : GameRooms) (code : String) :
    (getRoomStatus g code = none ↔ mapGet g code = none)
      ∧ ((roomStatusRoute g code).2.success = false ↔ mapGet g code = none)
      ∧ (∀ room, mapGet g code = some room →
          getRoomStatus g code =
            some { code := room.code, totalPlayers := 5,
                   viewedPlayers := (room.viewers.length : Int),
                   allViewed := decide (room.viewers.length = 5) }) := by
  unfold roomStatusRoute getRoomStatus
  cases hm : mapGet g code with
  | none => simp
  | some room => simp

theorem eq_of_key_eq {g : GameRooms} (hk : (g.map Prod.fst).Nodup) {e₁ e₂ : String × Room}
    (h₁ : e₁ ∈ g) (h₂ : e₂ ∈ g) (h : e₁.1 = e₂.1) : e₁ = e₂ :=
  List.inj_on_of_nodup_map hk h₁ h₂ h

theorem keptKey_of_mem {g : GameRooms} (hk : (g.map Prod.fst).Nodup) (now : Int)
    {e : String × Room} (he : e ∈ g) :
    keptKey g now e.1 = !decide (now - e.2.createdAt > 60 * 60 * 1000) := by
  by_cases hold : now - e.2.createdAt > 60 * 60 * 1000
  · have h₁ : keptKey g now e.1 = false := by
      simp only [keptKey, Bool.not_eq_false', List.any_eq_true, Bool.and_eq_true,
        decide_eq_true_eq]
      exact ⟨e, he, hold, rfl⟩
    rw [h₁, decide_eq_true hold]
    rfl
  · have h₁ : keptKey g now e.1 = true := by
      simp only [keptKey, Bool.not_eq_true', List.any_eq_false, Bool.and_eq_true,
        decide_eq_true_eq, not_and]
      intro e₂ he₂ hold₂ hkey
      rw [eq_of_key_eq hk he₂ he hkey] at hold₂
      exact hold hold₂
    rw [h₁, decide_eq_false hold]
    rfl

/-- C12: for every store (a map, so with pairwise distinct keys) and every time `now`,
`cleanupOldRooms` removes exactly the rooms with `now - createdAt > 3600000` and leaves
every other room present and unchanged, in place; a room created at time `T` is still
stored after a sweep at `T + 59` minutes and is absent after a sweep at `T + 61` minutes. -/
theorem cleanupOldRooms_spec (g : GameRooms) (now : Int) (hk : (g.map Prod.fst).Nodup) :
    cleanupOldRooms g now = g.filter (fun e => !decide (now - e.2.createdAt > 3600000))
      ∧ (∀ code room, mapGet g code = some room →
          mapGet (cleanupOldRooms g now) code =
            if now - room.createdAt > 3600000 then none else some room)
      ∧ (∀ code, mapGet g code = none → mapGet (cleanupOldRooms g now) code = none)
      ∧ (∀ (random : Nat → ℚ) (σ : Equiv.Perm (Fin 5)) (T : Int),
          mapGet (cleanupOldRooms (createGameRoom g random σ T).1 (T + 59 * 60 * 1000))
              (createGameRoom g random σ T).2
            = some (freshRoom (generateRoomCode random) σ T)
          ∧ mapGet (cleanupOldRooms (createGameRoom g random σ T).1 (T + 61 * 60 * 1000))
              (createGameRoom g random σ T).2 = none) := by
  have hget : ∀ (g : GameRooms), (g.map Prod.fst).Nodup → ∀ (now : Int) code room,
      mapGet g code = some room →
      mapGet (cleanupOldRooms g now) code =
        if now - room.createdAt > 3600000 then none else some room := by
    intro g hk now code room hm
    rw [mapGet_cleanupOldRooms]
    have := keptKey_of_mem hk now (mapGet_mem g code room hm)
    simp only at this
    rw [this, hm]
    by_cases hold : now - room.createdAt > 3600000
    · have hold₂ : now - room.createdAt > 60 * 60 * 1000 := by omega
      simp [hold, hold₂]
    · have hold₂ : ¬ now - room.createdAt > 60 * 60 * 1000 := by omega
      simp [hold, hold₂]
  refine ⟨?_, hget g hk now, ?_, ?_⟩
  · rw [cleanupOldRooms_eq]
    apply List.filter_congr
    intro e he
    rw [keptKey_of_mem hk now he]
    have h₁ : ((60 : Int) * 60 * 1000) = 3600000 := by norm_num
    rw [h₁]
  · intro code hm
    rw [mapGet_cleanupOldRooms, hm]
    simp
  · intro random σ T
    have hk₁ : ((createGameRoom g random σ T).1.map Prod.fst).Nodup := by
      rw [createGameRoom_eq]
      exact nodup_keys_mapSet _ _ _ hk
    have hm₁ : mapGet (createGameRoom g random σ T).1 (createGameRoom g random σ T).2
        = some (freshRoom (generateRoomCode random) σ T) := by
      rw [createGameRoom_eq]
      exact mapGet_mapSet_self _ _ _
    constructor
    · rw [hget _ hk₁ _ _ _ hm₁]
      have : ¬ (T + 59 * 60 * 1000 - (freshRoom (generateRoomCode random) σ T).createdAt
          > 3600000) := by
        simp only [freshRoom]
        omega
      simp only [this, if_false]
    · rw [hget _ hk₁ _ _ _ hm₁]
      have : T + 61 * 60 * 1000 - (freshRoom (generateRoomCode random) σ T).createdAt
          > 3600000 := by
        simp only [freshRoom]
        omega
      simp only [this, if_true]

/-- C12, at `sampleStore` (room created at time 1000) and a sweep at time 5000000. -/
theorem cleanupOldRooms_spec_witness :
    (sampleStore.map Prod.fst).Nodup
      ∧ cleanupOldRooms sampleStore 5000000
          = sampleStore.filter (fun e => !decide (5000000 - e.2.createdAt > 3600000))
      ∧ (∀ code room, mapGet sampleStore code = some room →
          mapGet (cleanupOldRooms sampleStore 5000000) code =
            if 5000000 - room.createdAt > 3600000 then none else some room)
      ∧ (∀ code, mapGet sampleStore code = none →
          mapGet (cleanupOldRooms sampleStore 5000000) code = none)
      ∧ (∀ (random : Nat → ℚ) (σ : Equiv.Perm (Fin 5)) (T : Int),
          mapGet (cleanupOldRooms (createGameRoom sampleStore random σ T).1
              (T + 59 * 60 * 1000)) (createGameRoom sampleStore random σ T).2
            = some (freshRoom (generateRoomCode random) σ T)
          ∧ mapGet (cleanupOldRooms (createGameRoom sampleStore random σ T).1
              (T + 61 * 60 * 1000)) (createGameRoom sampleStore random σ T).2 = none) :=
  have hk : (sampleStore.map Prod.fst).Nodup := by rw [sampleStore_eq]; decide
  ⟨hk, cleanupOldRooms_spec sampleStore 5000000 hk⟩

/-! ## The shuffle -/

theorem comparatorNegative_iff (r : ℚ) : comparatorNegative r = true ↔ r < 1 / 2 := by
  simp only [comparatorNegative, decide_eq_true_eq]
  constructor <;> intro h <;> linarith

theorem sum_outcomeCount {n : Nat} (sort : (Fin n → Bool) → Equiv.Perm (Fin 5)) :
    ∑ σ : Equiv.Perm (Fin 5), outcomeCount sort σ = 2 ^ n := by
  have h := Finset.card_eq_sum_card_fiberwise
    (f := sort) (s := Finset.univ) (t := Finset.univ) (fun _ _ => Finset.mem_univ _)
  simp only [outcomeCount]
  rw [← h]
  simp

/-- C13: the shuffle of `createGameRoom` is a sort under a random comparator, and it is
not unbiased: the order it leaves depends on the draws only through the signs `draw < 1/2`
of the comparator results, and whatever sort procedure the engine runs and however many
comparator calls `n` it makes, two of the 120 orders are reached by different numbers of
the `2 ^ n` equally likely sign sequences, so they are not equally probable. -/
theorem comparator_shuffle_biased (n : Nat)
    (sort : (Fin n → Bool) → Equiv.Perm (Fin 5)) :
    (∀ draws : Fin n → ℚ,
        sortOutcome sort draws = sort (fun i => decide (draws i < 1 / 2)))
      ∧ ∃ σ τ : Equiv.Perm (Fin 5), outcomeCount sort σ ≠ outcomeCount sort τ := by
  refine ⟨fun draws => ?_, ?_⟩
  · unfold sortOutcome
    congr 1
    funext i
    exact Bool.eq_iff_iff.mpr (by rw [comparatorNegative_iff]; simp)
  by_contra hcon
  push_neg at hcon
  have hsum := sum_outcomeCount sort
  have hconst : ∀ σ : Equiv.Perm (Fin 5), outcomeCount sort σ = outcomeCount sort 1 :=
    fun σ => hcon σ 1
  rw [Finset.sum_congr rfl (fun σ _ => hconst σ), Finset.sum_const, Finset.card_univ,
    Fintype.card_perm, Fintype.card_fin, smul_eq_mul] at hsum
  have h120 : Nat.factorial 5 = 3 * 40 := by decide
  have h3 : 3 ∣ 2 ^ n := by
    rw [← hsum, h120, Nat.mul_assoc]
    exact Dvd.intro _ rfl
  have := Nat.Prime.dvd_of_dvd_pow Nat.prime_three h3
  omega

/-! ## Room codes -/

theorem codeIndex_eq (random : Nat → ℚ) (i : Nat) : codeIndex random i = ⌊32 * random i⌋ := by
  have h : ((chars.length : Nat) : ℚ) = 32 := by
    have : chars.length = 32 := by decide
    rw [this]; norm_num
  rw [codeIndex, h, mul_comm]

theorem codeIndex_range (random : Nat → ℚ) (i : Nat) (h₀ : 0 ≤ random i) (h₁ : random i < 1) :
    0 ≤ codeIndex random i ∧ codeIndex random i < 32 := by
  rw [codeIndex_eq]
  constructor
  · exact Int.floor_nonneg.mpr (by linarith)
  · rw [Int.floor_lt]
    push_cast
    linarith

theorem charAt_chars (k : Int) (h₀ : 0 ≤ k) (h₁ : k < 32) :
    ∃ c, chars.toList.get? k.toNat = some c ∧ charAt chars k = String.singleton c := by
  have hlen : k.toNat < chars.toList.length := by
    have : chars.toList.length = 32 := by decide
    omega
  refine ⟨chars.toList.get ⟨k.toNat, hlen⟩, List.get?_eq_get hlen, ?_⟩
  simp only [charAt, h₀, if_true, List.get?_eq_get hlen]

theorem generateRoomCode_unfold (random : Nat → ℚ) :
    generateRoomCode random =
      "" ++ charAt chars (codeIndex random 0) ++ charAt chars (codeIndex random 1)
        ++ charAt chars (codeIndex random 2) ++ charAt chars (codeIndex random 3) := by
  rfl

theorem chars_get_inj (a b : Nat) (c : Char) (ha : chars.toList.get? a = some c)
    (hb : chars.toList.get? b = some c) : a = b := by
  have hnd : chars.toList.Nodup := by decide
  obtain ⟨ha₁, ha₂⟩ := List.get?_eq_some.mp ha
  obtain ⟨hb₁, hb₂⟩ := List.get?_eq_some.mp hb
  have := (List.Nodup.get_inj_iff hnd).mp (ha₂.trans hb₂.symm)
  simpa using congrArg Fin.val this

theorem generateRoomCode_chars (random : Nat → ℚ)
    (h : ∀ i, i < 4 → 0 ≤ random i ∧ random i < 1) :
    ∃ c₀ c₁ c₂ c₃ : Char, generateRoomCode random = String.mk [c₀, c₁, c₂, c₃]
      ∧ chars.toList.get? (codeIndex random 0).toNat = some c₀
      ∧ chars.toList.get? (codeIndex random 1).toNat = some c₁
      ∧ chars.toList.get? (codeIndex random 2).toNat = some c₂
      ∧ chars.toList.get? (codeIndex random 3).toNat = some c₃ := by
  have r₀ := codeIndex_range random 0 (h 0 (by decide)).1 (h 0 (by decide)).2
  have r₁ := codeIndex_range random 1 (h 1 (by decide)).1 (h 1 (by decide)).2
  have r₂ := codeIndex_range random 2 (h 2 (by decide)).1 (h 2 (by decide)).2
  have r₃ := codeIndex_range random 3 (h 3 (by decide)).1 (h 3 (by decide)).2
  obtain ⟨c₀, g₀, e₀⟩ := charAt_chars _ r₀.1 r₀.2
  obtain ⟨c₁, g₁, e₁⟩ := charAt_chars _ r₁.1 r₁.2
  obtain ⟨c₂, g₂, e₂⟩ := charAt_chars _ r₂.1 r₂.2
  obtain ⟨c₃, g₃, e₃⟩ := charAt_chars _ r₃.1 r₃.2
  refine ⟨c₀, c₁, c₂, c₃, ?_, g₀, g₁, g₂, g₃⟩
  rw [generateRoomCode_unfold, e₀, e₁, e₂, e₃]
  rfl

/-- C14: for draws `r_i` with `0 ≤ r_i < 1`, every index `floor(32 * r_i)` lies in
`0..31`, `generateRoomCode` returns a string of exactly 4 characters, the `i`-th being the
character at that index of the alphabet; the alphabet has 32 pairwise distinct symbols,
none of them `I`, `O`, `0`, `1`; and two draw sequences that give the same code have the
same four indices. -/
theorem generateRoomCode_spec (random : Nat → ℚ)
    (h : ∀ i, i < 4 → 0 ≤ random i ∧ random i < 1) :
    (∀ i, i < 4 → 0 ≤ ⌊32 * random i⌋ ∧ ⌊32 * random i⌋ < 32)
      ∧ (generateRoomCode random).length = 4
      ∧ (∀ i, i < 4 → ∃ c, chars.toList.get? ⌊32 * random i⌋.toNat = some c
          ∧ (generateRoomCode random).toList.get? i = some c)
      ∧ chars.length = 32
      ∧ chars.toList.Nodup
      ∧ 'I' ∉ chars.toList ∧ 'O' ∉ chars.toList ∧ '0' ∉ chars.toList ∧ '1' ∉ chars.toList
      ∧ (∀ random₂ : Nat → ℚ, (∀ i, i < 4 → 0 ≤ random₂ i ∧ random₂ i < 1) →
          generateRoomCode random = generateRoomCode random₂ →
          ∀ i, i < 4 → ⌊32 * random i⌋ = ⌊32 * random₂ i⌋) := by
  obtain ⟨c₀, c₁, c₂, c₃, hcode, g₀, g₁, g₂, g₃⟩ := generateRoomCode_chars random h
  have hrange : ∀ i, i < 4 → 0 ≤ ⌊32 * random i⌋ ∧ ⌊32 * random i⌋ < 32 := by
    intro i hi
    rw [← codeIndex_eq]
    exact codeIndex_range random i (h i hi).1 (h i hi).2
  refine ⟨hrange, by rw [hcode]; rfl, ?_, by decide, by decide, by decide, by decide,
    by decide, by decide, ?_⟩
  · intro i hi
    rw [← codeIndex_eq, hcode]
    interval_cases i
    · exact ⟨c₀, g₀, rfl⟩
    · exact ⟨c₁, g₁, rfl⟩
    · exact ⟨c₂, g₂, rfl⟩
    · exact ⟨c₃, g₃, rfl⟩
  · intro random₂ h₂ heq
    obtain ⟨d₀, d₁, d₂, d₃, hcode₂, k₀, k₁, k₂, k₃⟩ := generateRoomCode_chars random₂ h₂
    rw [hcode, hcode₂] at heq
    injection heq with heq
    simp only [List.cons.injEq, and_true] at heq
    obtain ⟨q₀, q₁, q₂, q₃⟩ := heq
    subst q₀ q₁ q₂ q₃
    have key : ∀ i, i < 4 →
        chars.toList.get? (codeIndex random i).toNat
          = chars.toList.get? (codeIndex random₂ i).toNat := by
      intro i hi
      interval_cases i
      · rw [g₀, k₀]
      · rw [g₁, k₁]
      · rw [g₂, k₂]
      · rw [g₃, k₃]
    intro i hi
    have ra := codeIndex_range random i (h i hi).1 (h i hi).2
    have rb := codeIndex_range random₂ i (h₂ i hi).1 (h₂ i hi).2
    obtain ⟨c, gc, _⟩ := charAt_chars _ ra.1 ra.2
    have gd := gc
    rw [key i hi] at gd
    have := chars_get_inj _ _ c gc gd
    rw [← codeIndex_eq, ← codeIndex_eq]
    omega

/-- C14, at the draws `zeroDraws`. -/
theorem generateRoomCode_spec_witness :
    (∀ i, i < 4 → 0 ≤ zeroDraws i ∧ zeroDraws i < 1)
      ∧ (∀ i, i < 4 → 0 ≤ ⌊32 * zeroDraws i⌋ ∧ ⌊32 * zeroDraws i⌋ < 32)
      ∧ (generateRoomCode zeroDraws).length = 4
      ∧ (∀ i, i < 4 → ∃ c, chars.toList.get? ⌊32 * zeroDraws i⌋.toNat = some c
          ∧ (generateRoomCode zeroDraws).toList.get? i = some c)
      ∧ chars.length = 32
      ∧ chars.toList.Nodup
      ∧ 'I' ∉ chars.toList ∧ 'O' ∉ chars.toList ∧ '0' ∉ chars.toList ∧ '1' ∉ chars.toList
      ∧ (∀ random₂ : Nat → ℚ, (∀ i, i < 4 → 0 ≤ random₂ i ∧ random₂ i < 1) →
          generateRoomCode zeroDraws = generateRoomCode random₂ →
          ∀ i, i < 4 → ⌊32 * zeroDraws i⌋ = ⌊32 * random₂ i⌋) :=
  have h : ∀ i, i < 4 → 0 ≤ zeroDraws i ∧ zeroDraws i < 1 := by
    intro i _
    simp [zeroDraws]
  ⟨h, generateRoomCode_spec zeroDraws h⟩

/-! ## Frame conditions -/

/-- C15: for every state, code and seat value, `getPlayerInfo(code, seat)` leaves
unchanged the stored codes, every room under another code, and the target room's `code`,
`players`, `phantomSeat`, `morganSeat` and `createdAt`; the target room's `viewers` is
either unchanged or has `seat` appended; with no room under `code` the store is unchanged. -/
theorem getPlayerInfo_frame (g : GameRooms) (code : String) (seat : JsValue) :
    (getPlayerInfo g code seat).1.map Prod.fst = g.map Prod.fst
      ∧ (∀ c, c ≠ code → mapGet (getPlayerInfo g code seat).1 c = mapGet g c)
      ∧ (mapGet g code = none → (getPlayerInfo g code seat).1 = g)
      ∧ (∀ room, mapGet g code = some room →
          ∃ room₂, mapGet (getPlayerInfo g code seat).1 code = some room₂
            ∧ room₂.code = room.code
            ∧ room₂.players = room.players
            ∧ room₂.phantomSeat = room.phantomSeat
            ∧ room₂.morganSeat = room.morganSeat
            ∧ room₂.createdAt = room.createdAt
            ∧ (room₂.viewers = room.viewers
                ∨ (seat ∉ room.viewers ∧ room₂.viewers = room.viewers ++ [seat]))) := by
  cases hm : mapGet g code with
  | none =>
    have h₁ : getPlayerInfo g code seat = (g, none) := by simp only [getPlayerInfo, hm]
    rw [h₁]
    exact ⟨rfl, fun _ _ => rfl, fun _ => rfl, fun room h => by simp at h⟩
  | some room =>
    cases hf : room.players.find? (fun p => strictEq (.number (p.seat : ℚ)) seat) with
    | none =>
      have h₁ : getPlayerInfo g code seat = (g, none) := by simp only [getPlayerInfo, hm, hf]
      rw [h₁]
      refine ⟨rfl, fun _ _ => rfl, fun _ => rfl, ?_⟩
      intro room₁ h
      injection h with h
      subst h
      exact ⟨room, hm, rfl, rfl, rfl, rfl, rfl, Or.inl rfl⟩
    | some player =>
      have h₁ : (getPlayerInfo g code seat).1 =
          mapSet g code { room with viewers := setAdd room.viewers seat } := by
        simp only [getPlayerInfo, hm, hf]
      rw [h₁]
      have hkey : code ∈ g.map Prod.fst :=
        List.mem_map.mpr ⟨(code, room), mapGet_mem g code room hm, rfl⟩
      refine ⟨by rw [keys_mapSet, if_pos hkey],
        fun c hc => mapGet_mapSet_ne _ _ _ _ (Ne.symm hc), fun h => by simp at h, ?_⟩
      intro room₁ h
      injection h with h
      subst h
      refine ⟨_, mapGet_mapSet_self _ _ _, rfl, rfl, rfl, rfl, rfl, ?_⟩
      by_cases hv : seat ∈ room.viewers
      · left; simp [setAdd, hv]
      · right; exact ⟨hv, by simp [setAdd, hv]⟩

theorem Received.field?_isSome (payload : Received) (name : String)
    (h₁ : payload ≠ .value .undefined) (h₂ : payload ≠ .value .null) :
    ∃ v, payload.field? name = some v := by
  cases payload with
  | value v =>
    cases v with
    | undefined => exact absurd rfl h₁
    | null => exact absurd rfl h₂
    | bool b => exact ⟨_, rfl⟩
    | number q => exact ⟨_, rfl⟩
    | string s => exact ⟨_, rfl⟩
  | object field => exact ⟨_, rfl⟩

/-- C16: `getRoomStatus`, the `join-room` and `room-status` request handlers and the
`join-room` socket handler hand back the store as it was for every state and every
input, and so does the `player-viewed` socket handler for every argument other than
`undefined` and `null`, whatever `roomCode` and `seatNumber` it carries; but on an event
sent without argument, or with `null`, the `player-viewed` handler throws instead of
returning, and the store is not kept. -/
theorem player_viewed_without_payload (g : GameRooms) :
    onPlayerViewed g (.value .undefined) = none
      ∧ onPlayerViewed g (.value .null) = none
      ∧ (∀ payload : Received, payload ≠ .value .undefined → payload ≠ .value .null →
          ∃ events, onPlayerViewed g payload = some (g, events))
      ∧ (∀ code, (Op.status code).run g = g)
      ∧ (∀ body, (joinRoomRoute g body).1 = g)
      ∧ (∀ code, (roomStatusRoute g code).1 = g)
      ∧ (∀ arg, (onJoinRoom g arg).1 = g) := by
  refine ⟨rfl, rfl, ?_, fun _ => rfl, ?_, ?_, ?_⟩
  · intro payload h₁ h₂
    obtain ⟨v, hv⟩ := payload.field?_isSome "roomCode" h₁ h₂
    obtain ⟨w, hw⟩ := payload.field?_isSome "seatNumber" h₁ h₂
    unfold onPlayerViewed
    rw [hv, hw]
    cases v with
    | undefined => exact ⟨_, rfl⟩
    | null => exact ⟨_, rfl⟩
    | bool b => exact ⟨_, rfl⟩
    | number q => exact ⟨_, rfl⟩
    | string s =>
      simp only
      cases getRoomStatus g s with
      | none => exact ⟨_, rfl⟩
      | some st => exact ⟨_, rfl⟩
  · intro body
    unfold joinRoomRoute
    cases body.field? "roomCode" with
    | none => rfl
    | some v =>
      cases v with
      | undefined => rfl
      | null => rfl
      | bool b => rfl
      | number q => rfl
      | string s =>
        simp only
        cases mapGet g s <;> rfl
  · intro code
    unfold roomStatusRoute
    cases getRoomStatus g code <;> rfl
  · intro arg
    unfold onJoinRoom
    cases arg with
    | value v =>
      cases v with
      | undefined => rfl
      | null => rfl
      | bool b => rfl
      | number q => rfl
      | string s =>
        simp only
        cases getRoomStatus g s <;> rfl
    | object field => rfl

/-! ## Malformed seat numbers -/

theorem getPlayerInfo_not_integer (g : GameRooms) (code : String) (v : JsValue)
    (hv : ∀ k : Int, v ≠ .number (k : ℚ)) : getPlayerInfo g code v = (g, none) := by
  unfold getPlayerInfo
  cases hm : mapGet g code with
  | none => rfl
  | some room =>
    have hnone : room.players.find? (fun p => strictEq (.number (p.seat : ℚ)) v) = none := by
      rw [List.find?_eq_none]
      intro p _
      simp only [strictEq, decide_eq_true_eq]
      exact fun h => hv p.seat h.symm
    simp only [hnone]

/-- C17, as stated, fails: in the reachable store `sampleStore`, a `get-role` request for
the existing room `AAAA` with `seatNumber` missing, or equal to the string `"3"`, is
answered with the message `获取角色失败`, which is not the message `座位号无效` given for
seat 0. -/
theorem malformed_seat_message_counterexample :
    Reachable sampleStore ∧ mapGet sampleStore "AAAA" = some sampleRoom
      ∧ (getRole readThree sampleStore "AAAA" (.number ((0 : Int) : ℚ))).2.message
          = some "座位号无效"
      ∧ (getRole readThree sampleStore "AAAA" .undefined).2.message = some "获取角色失败"
      ∧ (getRole readThree sampleStore "AAAA" (.string "3")).2.message = some "获取角色失败"
      ∧ (getRole readThree sampleStore "AAAA" .undefined).2
          ≠ (getRole readThree sampleStore "AAAA" (.number ((0 : Int) : ℚ))).2 := by
  refine ⟨sampleStore_reachable, by rw [sampleStore_eq]; decide, ?_, ?_, ?_, ?_⟩
  · rw [sampleStore_eq]; decide
  · rw [sampleStore_eq]; decide
  · rw [sampleStore_eq]; decide
  · rw [sampleStore_eq]; decide

/-- C17, amended: for a `get-role` request that names an existing room and whose
`seatNumber` is not an integer number (missing, a non-integer number such as 2.5, a
string such as `"3"`), the handler answers `success: false` and leaves the store
unchanged; the message is the invalid-seat message when the value converts to a number
below 1 or above 5 and the lookup-failure message `获取角色失败` otherwise, so the latter
for a missing field, for a non-integer number within `1..5` and for a string read as a
number within `1..5`. -/
theorem malformed_seat_rejected (strToNum : String → Option ℚ) (g : GameRooms)
    (code : String) (room : Room) (v : JsValue)
    (hm : mapGet g code = some room) (hv : ∀ k : Int, v ≠ .number (k : ℚ)) :
    (getRole strToNum g code v).1 = g
      ∧ (getRole strToNum g code v).2.success = false
      ∧ (getRole strToNum g code v).2.message =
          some (if jsLt (toNumber strToNum v) (some 1) || jsLt (some 5) (toNumber strToNum v)
            then "座位号无效" else "获取角色失败")
      ∧ (v = .undefined → (getRole strToNum g code v).2.message = some "获取角色失败")
      ∧ (∀ q : ℚ, v = .number q → 1 ≤ q → q ≤ 5 →
          (getRole strToNum g code v).2.message = some "获取角色失败")
      ∧ (∀ (s : String) (q : ℚ), v = .string s → strToNum s = some q → 1 ≤ q → q ≤ 5 →
          (getRole strToNum g code v).2.message = some "获取角色失败") := by
  have hinfo := getPlayerInfo_not_integer g code v hv
  have hmsg : (getRole strToNum g code v).2.message =
      some (if jsLt (toNumber strToNum v) (some 1) || jsLt (some 5) (toNumber strToNum v)
        then "座位号无效" else "获取角色失败") := by
    unfold getRole
    simp only [hm, hinfo]
    split <;> rfl
  refine ⟨?_, ?_, hmsg, ?_, ?_, ?_⟩
  · unfold getRole
    simp only [hm, hinfo]
    split <;> rfl
  · unfold getRole
    simp only [hm, hinfo]
    split <;> rfl
  · intro h
    rw [hmsg, h]
    rfl
  · intro q h h₁ h₅
    rw [hmsg, h]
    have a : ¬ q < 1 := not_lt.mpr h₁
    have b : ¬ 5 < q := not_lt.mpr h₅
    simp [toNumber, jsLt, a, b]
  · intro s q h hs h₁ h₅
    rw [hmsg, h]
    have a : ¬ q < 1 := not_lt.mpr h₁
    have b : ¬ 5 < q := not_lt.mpr h₅
    simp [toNumber, jsLt, hs, a, b]

/-- C17 amended, at a missing `seatNumber` for the room `AAAA` of `sampleStore`. -/
theorem malformed_seat_rejected_witness :
    mapGet sampleStore "AAAA" = some sampleRoom
      ∧ (∀ k : Int, JsValue.undefined ≠ .number (k : ℚ))
      ∧ (getRole readThree sampleStore "AAAA" .undefined).1 = sampleStore
      ∧ (getRole readThree sampleStore "AAAA" .undefined).2.success = false
      ∧ (getRole readThree sampleStore "AAAA" .undefined).2.message = some "获取角色失败" :=
  have hm : mapGet sampleStore "AAAA" = some sampleRoom := by rw [sampleStore_eq]; decide
  have hv : ∀ k : Int, JsValue.undefined ≠ .number (k : ℚ) := fun _ h => by cases h
  have h := malformed_seat_rejected readThree sampleStore "AAAA" sampleRoom .undefined hm hv
  ⟨hm, hv, h.1, h.2.1, h.2.2.2.1 rfl⟩

/-! ## The viewed markers -/

theorem revealedStore_eq :
    revealedStore = [("AAAA", { sampleRoom with viewers := [.number 1] })] := by
  rw [revealedStore, sampleStore_eq]
  decide

theorem revealedStore_reachable : Reachable revealedStore :=
  Reachable.step (.reveal "AAAA" (.number 1)) sampleStore_reachable

theorem RoomInv.viewers_length_le {r : Room} (h : RoomInv r) : r.viewers.length ≤ 5 := by
  have hsub : r.viewers ⊆ ([1, 2, 3, 4, 5] : List Int).map (fun k => JsValue.number (k : ℚ)) := by
    intro v hv
    obtain ⟨k, hk₁, hk₅, rfl⟩ := h.viewersRange v hv
    refine List.mem_map.mpr ⟨k, ?_, rfl⟩
    have hk : k = 1 ∨ k = 2 ∨ k = 3 ∨ k = 4 ∨ k = 5 := by omega
    rcases hk with rfl | rfl | rfl | rfl | rfl <;> decide
  have := (List.Nodup.subperm h.viewersNodup hsub).length_le
  simpa using this

/-- C18, as stated, fails: in the reachable store `sampleStore` the reveal of seat 1
succeeds, and afterwards the slot bound to seat 1 still has `viewed = false`. -/
theorem viewed_flag_counterexample :
    Reachable sampleStore
      ∧ (getPlayerInfo sampleStore "AAAA" (.number 1)).2.isSome = true
      ∧ ∃ room p, mapGet (getPlayerInfo sampleStore "AAAA" (.number 1)).1 "AAAA" = some room
          ∧ p ∈ room.players ∧ p.seat = 1 ∧ p.viewed = false ∧ ¬ (p.viewed = true) := by
  refine ⟨sampleStore_reachable, by rw [sampleStore_eq]; decide,
    { sampleRoom with viewers := [.number 1] },
    { seat := 1, role := "摩根勒菲", team := "red", description := "邪恶的女巫",
      viewed := false }, ?_, by decide, rfl, rfl, by decide⟩
  rw [sampleStore_eq]
  decide

/-- C18, amended: the per-slot `viewed` flag is never written. For every reachable
state, code and seat `s` in `1..5`, `getPlayerInfo(code, s)` succeeds and afterwards `s`
is in the room's `viewers` set while every slot of the room, the one bound to `s`
included, still has `viewed = false`; and in every reachable state every slot of every
room has `viewed = false`. -/
theorem viewed_flag_never_set (g : GameRooms) (code : String) (room : Room) (s : Int)
    (hg : Reachable g) (hm : mapGet g code = some room) (h₁ : 1 ≤ s) (h₅ : s ≤ 5) :
    (getPlayerInfo g code (.number (s : ℚ))).2.isSome = true
      ∧ (∃ room₂, mapGet (getPlayerInfo g code (.number (s : ℚ))).1 code = some room₂
          ∧ JsValue.number (s : ℚ) ∈ room₂.viewers
          ∧ (∃ p ∈ room₂.players, p.seat = s)
          ∧ (∀ p ∈ room₂.players, p.viewed = false))
      ∧ (∀ g₂, Reachable g₂ → ∀ e ∈ g₂, ∀ p ∈ e.2.players, p.viewed = false) := by
  have hinv := (hg.inv.get hm).1
  obtain ⟨p, hp, hps⟩ := hinv.exists_seat h₁ h₅
  subst hps
  have hval := getPlayerInfo_of_mem hg.inv hm hp
  refine ⟨by rw [hval]; rfl, ?_, ?_⟩
  · rw [hval]
    refine ⟨_, mapGet_mapSet_self _ _ _, ?_, ⟨p, hp, rfl⟩, hinv.unviewed⟩
    exact (mem_setAdd _ _ _).mpr (Or.inr rfl)
  · intro g₂ hg₂ e he p₂ hp₂
    exact (hg₂.inv.rooms e he).1.unviewed p₂ hp₂

/-- C18 amended, at seat 1 of the room `AAAA` of `sampleStore`. -/
theorem viewed_flag_never_set_witness :
    Reachable sampleStore ∧ mapGet sampleStore "AAAA" = some sampleRoom
      ∧ (getPlayerInfo sampleStore "AAAA" (.number ((1 : Int) : ℚ))).2.isSome = true
      ∧ (∃ room₂, mapGet (getPlayerInfo sampleStore "AAAA" (.number ((1 : Int) : ℚ))).1 "AAAA"
            = some room₂
          ∧ JsValue.number ((1 : Int) : ℚ) ∈ room₂.viewers
          ∧ (∃ p ∈ room₂.players, p.seat = 1)
          ∧ (∀ p ∈ room₂.players, p.viewed = false))
      ∧ (∀ g₂, Reachable g₂ → ∀ e ∈ g₂, ∀ p ∈ e.2.players, p.viewed = false) :=
  have hm : mapGet sampleStore "AAAA" = some sampleRoom := by rw [sampleStore_eq]; decide
  ⟨sampleStore_reachable, hm,
    viewed_flag_never_set sampleStore "AAAA" sampleRoom 1 sampleStore_reachable hm
      (by decide) (by decide)⟩

/-- C19: in every state reachable from the empty store (reveals taking any code and
any seat value), every member of every stored room's `viewers` set is one of the numbers
`1..5`, and every answer of `getRoomStatus` has `0 ≤ viewedPlayers ≤ totalPlayers = 5`. -/
theorem viewers_within_seats (g : GameRooms) (hg : Reachable g) :
    (∀ e ∈ g, ∀ v ∈ e.2.viewers, ∃ k : Int, 1 ≤ k ∧ k ≤ 5 ∧ v = JsValue.number (k : ℚ))
      ∧ (∀ code st, getRoomStatus g code = some st →
          0 ≤ st.viewedPlayers ∧ st.viewedPlayers ≤ st.totalPlayers ∧ st.totalPlayers = 5) := by
  refine ⟨fun e he => (hg.inv.rooms e he).1.viewersRange, ?_⟩
  intro code st hst
  unfold getRoomStatus at hst
  cases hm : mapGet g code with
  | none => simp [hm] at hst
  | some room =>
    simp only [hm, Option.some.injEq] at hst
    have hlen := (hg.inv.get hm).1.viewers_length_le
    subst hst
    have h₅ : (room.viewers.length : Int) ≤ 5 := by exact_mod_cast hlen
    exact ⟨Int.ofNat_nonneg _, h₅, rfl⟩

/-- C19, at `sampleStore` after the reveal of seat 1. -/
theorem viewers_within_seats_witness :
    Reachable revealedStore
      ∧ (∀ e ∈ revealedStore, ∀ v ∈ e.2.viewers,
          ∃ k : Int, 1 ≤ k ∧ k ≤ 5 ∧ v = JsValue.number (k : ℚ))
      ∧ (∀ code st, getRoomStatus revealedStore code = some st →
          0 ≤ st.viewedPlayers ∧ st.viewedPlayers ≤ st.totalPlayers ∧ st.totalPlayers = 5) :=
  ⟨revealedStore_reachable, viewers_within_seats revealedStore revealedStore_reachable⟩

/-! ## Creation and the rest of the store -/

/-- C20: `createGameRoom` returns the generated code whatever the store holds, leaves
every room under another code unchanged, and stores under that code the fresh room
(code field equal to the key, the new role assignment, empty viewers, `createdAt = now`);
a room already stored under the code is replaced by it, in place and without a second
entry, so its recorded views are gone. -/
theorem createGameRoom_frame (g : GameRooms) (random : Nat → ℚ) (σ : Equiv.Perm (Fin 5))
    (now : Int) :
    (createGameRoom g random σ now).2 = generateRoomCode random
      ∧ (∀ c, c ≠ generateRoomCode random →
          mapGet (createGameRoom g random σ now).1 c = mapGet g c)
      ∧ (∃ room, mapGet (createGameRoom g random σ now).1 (generateRoomCode random) = some room
          ∧ room.code = generateRoomCode random
          ∧ room.players = mkPlayers (shuffledRoles σ)
          ∧ room.viewers = []
          ∧ room.createdAt = now)
      ∧ (∀ old, mapGet g (generateRoomCode random) = some old →
          (createGameRoom g random σ now).1.map Prod.fst = g.map Prod.fst
          ∧ (getRoomStatus (createGameRoom g random σ now).1 (generateRoomCode random)).map
              (fun st => st.viewedPlayers) = some 0)
      ∧ (mapGet g (generateRoomCode random) = none →
          (createGameRoom g random σ now).1.map Prod.fst
            = g.map Prod.fst ++ [generateRoomCode random]) := by
  rw [createGameRoom_eq]
  refine ⟨rfl, fun c hc => mapGet_mapSet_ne _ _ _ _ (Ne.symm hc),
    ⟨_, mapGet_mapSet_self _ _ _, rfl, rfl, rfl, rfl⟩, ?_, ?_⟩
  · intro old hold
    have hkey : generateRoomCode random ∈ g.map Prod.fst :=
      List.mem_map.mpr ⟨(_, old), mapGet_mem g _ old hold, rfl⟩
    refine ⟨by rw [keys_mapSet, if_pos hkey], ?_⟩
    simp only [getRoomStatus, mapGet_mapSet_self]
    rfl
  · intro hnone
    have hkey : generateRoomCode random ∉ g.map Prod.fst := by
      intro hmem
      obtain ⟨e, he, hek⟩ := List.mem_map.mp hmem
      have : ∀ (m : GameRooms), e ∈ m → mapGet m e.1 ≠ none := by
        intro m
        induction m with
        | nil => intro h; simp at h
        | cons x m ih =>
          intro h
          obtain ⟨k, r⟩ := x
          by_cases hk : k = e.1
          · simp [mapGet, hk]
          · rcases List.mem_cons.mp h with h | h
            · rw [h] at hk; exact absurd rfl hk
            · simp only [mapGet, hk, if_false]; exact ih h
      exact this g he (by rw [hek]; exact hnone)
    rw [keys_mapSet, if_neg hkey]

end Avalon
